import Mathlib

/-
  Verification of the data-ingestion and normalization core of the
  `real-income` tool (src/main.rs): period parsing, namespace-tolerant
  SDMX-ML extraction, series resolution, disk-cache contract, cache-key
  derivation, and the two deflator algorithms.

  Modelling conventions:
  * Rust `&str` values are embedded as Lean `String`s; where byte-level
    reasoning is needed (suffix matching, lexicographic comparison,
    cache keys) we work on `String.data : List Char`, which for the
    ASCII data handled by the program coincides with the byte view
    (and UTF-8 byte order coincides with code-point order in general).
  * `f64` values are embedded as `ℚ`; the claims under test are about
    exact algebraic facts (products, sign checks, equalities).
  * Fallible Rust code (`anyhow::Result`) is embedded as `Except String`.
  * The HTTP fetch and the `f64` string parser of the standard library
    are external collaborators and appear as function parameters.
-/

namespace RealIncome

/-! ### Byte-lexicographic order on strings

Rust compares `&str` (and hence the `TIME_PERIOD` tokens in
`sdmx_fetch_cpi_start_and_latest`, src/main.rs lines 815-819) by
lexicographic byte order.  `charListLe` is that order on the character
lists underlying Lean strings. -/

def charListLe : List Char → List Char → Bool
  | [], _ => true
  | _ :: _, [] => false
  | a :: as, b :: bs => if a = b then charListLe as bs else decide (a < b)

/-- `strLe a b` embeds Rust's `a.as_str() <= b.as_str()`. -/
def strLe (a b : String) : Bool := charListLe a.data b.data

/-! ### Namespace-tolerant name matching

The extractors compare element/attribute names with
`name.ends_with(target)` on the raw byte slice
(`sdmx_load_or_fetch_countries_iso3`, src/main.rs lines 657-699, and
`sdmx_fetch_cpi_start_and_latest`, lines 780-792).  No colon stripping
is performed by the source. -/

/-- Embeds the source's `name.as_ref().ends_with(target)`. -/
def suffixMatch (name target : String) : Bool :=
  target.data.isSuffixOf name.data

/-- Modelled from the spec: the spec (§9) describes matching as comparing
"the local name obtained by stripping everything up to and including the
last colon" against the target.  This is the comparator the spec's words
describe, used to compare against `suffixMatch`, the one the code uses. -/
def localName (name : String) : String :=
  ⟨(name.data.reverse.takeWhile (fun c => c ≠ ':')).reverse⟩

/-! ### Deflator engine (run_sdmx lines 475-478, run_datamapper lines 568-570) -/

/-- Ratio mode: `ratio = cpi_start / cpi_latest`,
`real_now = amount * ratio`, `loss = amount - real_now`,
`loss_pct = (1 - ratio) * 100` (src/main.rs lines 475-478). -/
def ratio_mode (amount cpiStart cpiLatest : ℚ) : ℚ × ℚ × ℚ :=
  let ratio := cpiStart / cpiLatest
  (amount * ratio, amount - amount * ratio, (1 - ratio) * 100)

/-- Chain mode results from a given deflator:
`real_now = amount / deflator`, `loss = amount - real_now`,
`loss_pct = (1 - 1/deflator) * 100` (src/main.rs lines 568-570). -/
def chain_mode (amount deflator : ℚ) : ℚ × ℚ × ℚ :=
  (amount / deflator, amount - amount / deflator, (1 - 1 / deflator) * 100)

/-- The running product `deflator *= 1.0 + (pi / 100.0)` of
`datamapper_deflator_and_yearly_pcpipch` (src/main.rs line 977),
isolated over the list of percentage rates actually included. -/
def chain_deflator (rates : List ℚ) : ℚ :=
  rates.foldl (fun d pi => d * (1 + pi / 100)) 1

/-! ### Decimal rendering (Rust `format!` / `Display` for integers) -/

/-- Decimal digit string of a natural number, most significant first
(Rust `Display` for unsigned integers). -/
def natDecimal (n : Nat) : List Char :=
  if n = 0 then ['0'] else ((Nat.digits 10 n).map Nat.digitChar).reverse

/-- Zero-pad on the left to width `w` (Rust `{:0w}` for non-negative input). -/
def padZero (w : Nat) (ds : List Char) : List Char :=
  List.replicate (w - ds.length) '0' ++ ds

/-- Rust `format!("{:0w}", n)` for a non-negative integer `n`. -/
def fmtNatPad (w : Nat) (n : Nat) : List Char := padZero w (natDecimal n)

/-- Rust `format!("{:0w}", y)` for `y : i32` (sign participates in the width). -/
def fmtIntPad (w : Nat) (y : Int) : List Char :=
  if y < 0 then '-' :: padZero (w - 1) (natDecimal y.natAbs) else padZero w (natDecimal y.natAbs)

/-! ### Rust standard-library string helpers used by the parsers -/

/-- Digit-run core of Rust `str::parse` for integer types: a non-empty
all-digit string, accumulated left to right. -/
def parseDigits (l : List Char) : Option Nat :=
  if l.isEmpty then none
  else l.foldl (fun acc c =>
    acc.bind (fun n => if c.isDigit then some (n * 10 + (c.toNat - 48)) else none)) (some 0)

/-- Embeds Rust `str::parse::<i32>`: optional `+`/`-` sign, one or more
digits, value within the `i32` range. -/
def parseI32 (l : List Char) : Option Int :=
  match l with
  | [] => none
  | c :: rest =>
    if c = '+' then
      (parseDigits rest).bind (fun n => if n ≤ 2147483647 then some (n : Int) else none)
    else if c = '-' then
      (parseDigits rest).bind (fun n => if n ≤ 2147483648 then some (-(n : Int)) else none)
    else
      (parseDigits (c :: rest)).bind (fun n => if n ≤ 2147483647 then some (n : Int) else none)

/-- Embeds Rust `str::parse::<u32>`: optional `+` sign, one or more digits,
value within the `u32` range (a leading `-` is just a non-digit here). -/
def parseU32 (l : List Char) : Option Nat :=
  match l with
  | [] => none
  | c :: rest =>
    if c = '+' then
      (parseDigits rest).bind (fun n => if n ≤ 4294967295 then some n else none)
    else
      (parseDigits (c :: rest)).bind (fun n => if n ≤ 4294967295 then some n else none)

/-- Embeds Rust `str::trim`: drop whitespace from both ends (`Char.isWhitespace`
covers the ASCII whitespace relevant to this program's inputs). -/
def rustTrim (l : List Char) : List Char :=
  ((l.dropWhile Char.isWhitespace).reverse.dropWhile Char.isWhitespace).reverse

/-- Embeds Rust `str::split('-')` collected into a `Vec`: the (possibly
empty) fragments between the separators; `""` yields `[""]`,
`"a--b"` yields `["a", "", "b"]`. -/
def splitDash : List Char → List (List Char)
  | [] => [[]]
  | c :: rest =>
    if c = '-' then [] :: splitDash rest
    else
      match splitDash rest with
      | [] => [[c]]
      | h :: t => (c :: h) :: t

/-- Embeds chrono `NaiveDate::from_ymd_opt(y, m, 1).is_some()` (src/main.rs
line 284): with day 1 the date exists iff the month is in `[1, 12]` and the
year is inside chrono's supported range (≈ ±262000 years; every `y`
reachable from `parse_ym` satisfies `0 ≤ y ≤ 99999`, far inside it). -/
def naiveDateValid (y : Int) (m : Nat) : Bool :=
  decide (1 ≤ m) && decide (m ≤ 12) && decide (-262144 ≤ y) && decide (y ≤ 262143)

/-! ### Period parsing (`parse_ym`, src/main.rs lines 270-286;
`parse_year_loose`, lines 288-296) -/

/-- Embeds `parse_ym` (src/main.rs lines 270-286): trim; require length 7;
split on `-` into exactly two parts; parse them as `i32` / `u32`; require
month in `[1, 12]`; require the calendar date to exist; render back as
`format!("{:04}-{:02}", y, m)`. -/
def parse_ym (s : List Char) : Except String (List Char) :=
  let t := rustTrim s
  if t.length ≠ 7 then .error "Expected YYYY-MM"
  else
    match splitDash t with
    | [ys, ms] =>
      match parseI32 ys with
      | none => .error "invalid digit found in string"
      | some y =>
        match parseU32 ms with
        | none => .error "invalid digit found in string"
        | some m =>
          if ¬ (1 ≤ m ∧ m ≤ 12) then .error "Month out of range"
          else if naiveDateValid y m then .ok (fmtIntPad 4 y ++ '-' :: fmtNatPad 2 m)
          else .error "Invalid date"
    | _ => .error "Expected YYYY-MM"

/-- Embeds `parse_year_loose` (src/main.rs lines 288-296): trim, take the
fragment before the first `-` (the whole string if none), parse as `i32`,
require the year to lie in `[1800, 3000]`. -/
def parse_year_loose (s : List Char) : Except String Int :=
  let t := rustTrim s
  let yearPart := (splitDash t).headD t
  match parseI32 yearPart with
  | none => .error "invalid digit found in string"
  | some y =>
    if 1800 ≤ y ∧ y ≤ 3000 then .ok y else .error "Year out of reasonable range"

/-! ### Cache keys (src/main.rs lines 733-739 and 924-925)

`run_sdmx` builds `series_key = format!("{country}.CPI._T.IX.M")`
(lines 448-451) from the canonical monthly periods produced by
`ym_to_sdmx_period` (`format!("{:04}-M{:02}", y, m)`, lines 299-305);
`sdmx_fetch_cpi_start_and_latest` then derives
`format!("sdmx_cpi_xml_{}_{}_{}.xml", series_key.replace('.', "_"),
start_period.replace('-', ""), end_period.replace('-', ""))`.
`datamapper_deflator_and_yearly_pcpipch` derives
`format!("dm_PCPIPCH_{}_{}_{}.json", iso3, start_year, end_year)`
(indicator `PCPIPCH` is a constant). -/

/-- Embeds `str::replace('.', "_")`. -/
def dotToUnderscore (l : List Char) : List Char :=
  l.map (fun c => if c = '.' then '_' else c)

/-- Embeds `str::replace('-', "")`. -/
def stripDashes (l : List Char) : List Char :=
  l.filter (fun c => c ≠ '-')

/-- Embeds the `series_key` format of `run_sdmx` (src/main.rs lines 448-451). -/
def sdmx_series_key (country : List Char) : List Char :=
  country ++ ".CPI._T.IX.M".data

/-- Embeds `ym_to_sdmx_period`'s output shape `format!("{:04}-M{:02}", y, m)`
(src/main.rs line 304) for the non-negative years the pipeline produces. -/
def sdmx_period (y m : Nat) : List Char :=
  fmtNatPad 4 y ++ '-' :: 'M' :: fmtNatPad 2 m

/-- Embeds the SDMX data cache key (src/main.rs lines 733-738). -/
def sdmx_cache_key (seriesKey startPeriod endPeriod : List Char) : List Char :=
  "sdmx_cpi_xml_".data ++ dotToUnderscore seriesKey ++
    "_".data ++ stripDashes startPeriod ++ "_".data ++ stripDashes endPeriod ++ ".xml".data

/-- Embeds the DataMapper cache key (src/main.rs line 924). -/
def dm_cache_key (iso3 : List Char) (startYear endYear : Nat) : List Char :=
  "dm_PCPIPCH_".data ++ iso3 ++ "_".data ++ natDecimal startYear ++
    "_".data ++ natDecimal endYear ++ ".json".data

/-! ### SDMX-ML event model

quick_xml parse events as consumed by the two extractors.  Attribute
values appear already unescaped (the `unescape_value` layer is the XML
library's, outside the extraction logic under study); the end of the
event list plays the role of `Event::Eof`. -/

inductive XEvent where
  | startE (name : String) (attrs : List (String × String))
  | emptyE (name : String) (attrs : List (String × String))
  | textE (s : String)
  | endE (name : String)
deriving DecidableEq

/-! ### Observation extraction
(`sdmx_fetch_cpi_start_and_latest`, src/main.rs lines 770-808) -/

/-- Attribute key matches `TIME_PERIOD` (line 788). -/
def isTP (a : String × String) : Bool := suffixMatch a.1 "TIME_PERIOD"

/-- Attribute key reaches and passes the `OBS_VALUE` test: the source
checks `TIME_PERIOD` first and `OBS_VALUE` in an `else if` (line 790). -/
def isOV (a : String × String) : Bool := !(isTP a) && suffixMatch a.1 "OBS_VALUE"

/-- The attribute scan of lines 784-794: each matching attribute
overwrites the running `tp`/`val`; an `OBS_VALUE` that fails to parse
aborts the whole extraction via `?`. -/
def scanObsAttrs (parseVal : String → Option ℚ) :
    List (String × String) → Option String × Option ℚ →
    Except String (Option String × Option ℚ)
  | [], acc => .ok acc
  | a :: rest, acc =>
    if suffixMatch a.1 "TIME_PERIOD" then scanObsAttrs parseVal rest (some a.2, acc.2)
    else if suffixMatch a.1 "OBS_VALUE" then
      match parseVal a.2 with
      | some v => scanObsAttrs parseVal rest (acc.1, some v)
      | none => .error "OBS_VALUE not numeric"
    else scanObsAttrs parseVal rest acc

/-- One loop iteration of lines 777-808: `Event::Empty` and `Event::Start`
are handled by the same arm; a record is pushed only when both fields were
found and the value is strictly positive. -/
def obs_step (parseVal : String → Option ℚ) (acc : List (String × ℚ)) (ev : XEvent) :
    Except String (List (String × ℚ)) :=
  match ev with
  | .startE n attrs | .emptyE n attrs =>
    if suffixMatch n "Obs" then
      match scanObsAttrs parseVal attrs (none, none) with
      | .error e => .error e
      | .ok (some t, some v) => if 0 < v then .ok (acc ++ [(t, v)]) else .ok acc
      | .ok _ => .ok acc
    else .ok acc
  | _ => .ok acc

/-- The event loop of lines 776-808: process events in order, stopping at
the first extraction error. -/
def obs_loop (parseVal : String → Option ℚ) :
    List XEvent → List (String × ℚ) → Except String (List (String × ℚ))
  | [], acc => .ok acc
  | ev :: rest, acc =>
    match obs_step parseVal acc ev with
    | .error e => .error e
    | .ok acc2 => obs_loop parseVal rest acc2

/-- The observation-extraction slice of `sdmx_fetch_cpi_start_and_latest`
(the event loop of lines 776-808), parameterized by the standard library's
`f64` parser. -/
def extract_observations (parseVal : String → Option ℚ) (events : List XEvent) :
    Except String (List (String × ℚ)) :=
  obs_loop parseVal events []

/-- Value of the last `TIME_PERIOD`-matching attribute, starting from `t0`. -/
def lastTPFrom (t0 : Option String) (attrs : List (String × String)) : Option String :=
  attrs.foldl (fun acc a => if isTP a then some a.2 else acc) t0

/-- Parse of the last `OBS_VALUE`-matching attribute, starting from `v0`. -/
def ovFrom (parseVal : String → Option ℚ) (v0 : Option ℚ)
    (attrs : List (String × String)) : Option ℚ :=
  attrs.foldl (fun acc a => if isOV a then parseVal a.2 else acc) v0

/-- Some `OBS_VALUE`-matching attribute fails to parse as a number. -/
def hasBadOV (parseVal : String → Option ℚ) (attrs : List (String × String)) : Bool :=
  attrs.any (fun a => isOV a && (parseVal a.2).isNone)

/-- Declarative per-event record: an `Obs` element (self-closing or with
children) emits a record iff a `TIME_PERIOD` attribute and an `OBS_VALUE`
attribute are both present and the parsed value is strictly positive. -/
def obsEmit (parseVal : String → Option ℚ) (ev : XEvent) : Option (String × ℚ) :=
  match ev with
  | .startE n attrs | .emptyE n attrs =>
    if suffixMatch n "Obs" then
      match lastTPFrom none attrs, ovFrom parseVal none attrs with
      | some t, some v => if 0 < v then some (t, v) else none
      | _, _ => none
    else none
  | _ => none

/-- Declarative per-event failure: an `Obs` element carrying an
`OBS_VALUE`-matching attribute whose value does not parse as a number. -/
def obsBadEvent (parseVal : String → Option ℚ) (ev : XEvent) : Bool :=
  match ev with
  | .startE n attrs | .emptyE n attrs => suffixMatch n "Obs" && hasBadOV parseVal attrs
  | _ => false

/-! ### Lookup-table (codelist) extraction
(`sdmx_load_or_fetch_countries_iso3`, src/main.rs lines 640-714) -/

/-- Code/label pair (struct `Item`, src/main.rs lines 93-97). -/
structure Item where
  code : String
  name : String
deriving DecidableEq

/-- The mutable scanner state of lines 646-649. -/
structure CodeState where
  in_code : Bool
  current_id : Option String
  current_name : Option String
  capture_name_text : Bool
deriving DecidableEq

def initCodeState : CodeState := ⟨false, none, none, false⟩

/-- The `id`-attribute scan of lines 662-667: each matching attribute
overwrites `current_id`, so the last one wins. -/
def lastIdAttr (attrs : List (String × String)) : Option String :=
  attrs.foldl (fun acc a => if suffixMatch a.1 "id" then some a.2 else acc) none

/-- Embeds Rust `str::eq_ignore_ascii_case`. -/
def eqIgnoreAsciiCase (s t : String) : Bool :=
  decide (s.data.map (fun c => if 'A' ≤ c ∧ c ≤ 'Z' then Char.ofNat (c.toNat + 32) else c)
    = t.data.map (fun c => if 'A' ≤ c ∧ c ≤ 'Z' then Char.ofNat (c.toNat + 32) else c))

/-- The `lang`-attribute scan of lines 670-679: `is_en` becomes true if any
`lang`-matching attribute equals `"en"` case-insensitively. -/
def isEnAttrs (attrs : List (String × String)) : Bool :=
  attrs.any (fun a => suffixMatch a.1 "lang" && eqIgnoreAsciiCase a.2 "en")

/-- One loop iteration of lines 651-711.  `Event::Empty` has no arm in the
source and is ignored.  On `End`, a `Name`-suffixed tag clears the capture
flag; a `Code`-suffixed tag commits `{code, name}` when an id was seen
(`current_name.take().unwrap_or(id)` defaults the label to the code). -/
def code_step (st : CodeState × List Item) (ev : XEvent) : CodeState × List Item :=
  match ev with
  | .startE n attrs =>
    if suffixMatch n "Code" then
      ({ st.1 with in_code := true, current_id := lastIdAttr attrs, current_name := none },
        st.2)
    else if st.1.in_code && suffixMatch n "Name" then
      ({ st.1 with capture_name_text := isEnAttrs attrs || st.1.current_name.isNone }, st.2)
    else st
  | .textE t =>
    if st.1.in_code && st.1.capture_name_text then
      ({ st.1 with current_name := some t }, st.2)
    else st
  | .endE n =>
    let s1 := if suffixMatch n "Name" then { st.1 with capture_name_text := false } else st.1
    if suffixMatch n "Code" && s1.in_code then
      match s1.current_id with
      | some id =>
        ({ s1 with in_code := false, current_id := none, current_name := none },
          st.2 ++ [⟨id, s1.current_name.getD id⟩])
      | none => ({ s1 with in_code := false, current_id := none }, st.2)
    else (s1, st.2)
  | .emptyE _ _ => st

/-- The codelist-extraction slice of `sdmx_load_or_fetch_countries_iso3`
(the event loop of lines 651-714; the model's attribute values are already
unescaped, so the loop runs to the end of the stream). -/
def extract_codes (events : List XEvent) : List Item :=
  (events.foldl code_step (initCodeState, [])).2

/-! ### Structured view of codelist documents

A codelist document is a sequence of `Code` blocks, each holding `Name`
children with text, as in the upstream feed
(`<str:Code id="POL"><com:Name xml:lang="en">Poland</com:Name></str:Code>`).
Rendering such a view into the event stream lets the stateful scanner be
compared with a declarative description of the committed items. -/

structure NameChild where
  tag : String
  attrs : List (String × String)
  texts : List String
deriving DecidableEq

structure CodeBlock where
  tag : String
  attrs : List (String × String)
  children : List NameChild
deriving DecidableEq

def renderChild (c : NameChild) : List XEvent :=
  XEvent.startE c.tag c.attrs :: (c.texts.map XEvent.textE ++ [XEvent.endE c.tag])

def renderBlock (b : CodeBlock) : List XEvent :=
  XEvent.startE b.tag b.attrs :: (b.children.flatMap renderChild ++ [XEvent.endE b.tag])

def renderDoc (bs : List CodeBlock) : List XEvent :=
  bs.flatMap renderBlock

/-- A `Name` child carries a `Name`-suffixed tag. -/
def childWF (c : NameChild) : Prop := suffixMatch c.tag "Name" = true

/-- A `Code` block carries a `Code`-suffixed tag and `Name` children. -/
def blockWF (b : CodeBlock) : Prop :=
  suffixMatch b.tag "Code" = true ∧ ∀ c ∈ b.children, childWF c

/-- Last element of `ts` as an option, defaulting to `cur`: the value of
`current_name` after the texts of one captured `Name` child. -/
def lastTextOr (cur : Option String) (ts : List String) : Option String :=
  ts.foldl (fun _acc t => some t) cur

/-- Declarative per-child name update, the English-wins/first-wins rule:
the child's text is captured if the child is tagged `lang="en"` or no name
has been captured yet; otherwise the child is ignored. -/
def childName (cur : Option String) (c : NameChild) : Option String :=
  if isEnAttrs c.attrs || cur.isNone then lastTextOr cur c.texts else cur

/-- Declarative committed name of a block: fold the precedence rule over
its `Name` children in document order. -/
def blockName (b : CodeBlock) : Option String :=
  b.children.foldl childName none

/-- Declarative committed item of a block: nothing without an
`id`-matching attribute; otherwise the captured name, defaulting to the
code string itself. -/
def blockItem (b : CodeBlock) : Option Item :=
  (lastIdAttr b.attrs).map (fun id => ⟨id, (blockName b).getD id⟩)

/-! ### Series resolver
(the resolution slice of `sdmx_fetch_cpi_start_and_latest`,
src/main.rs lines 810-836) -/

/-- Sort key of `obs.sort_by(|a, b| a.0.cmp(&b.0))` (line 815). -/
def obsLe (a b : String × ℚ) : Prop := strLe a.1 b.1 = true

instance : DecidableRel obsLe := fun a b => by unfold obsLe; infer_instance

def pick_start_and_latest (obs : List (String × ℚ)) (startPeriod endPeriod : String) :
    Except String (String × ℚ × String × ℚ) :=
  if obs.isEmpty then .error "No observations found in SDMX XML response"
  else
    let sorted := List.insertionSort obsLe obs
    match sorted.find? (fun p => strLe startPeriod p.1) with
    | none => .error "No CPI data found at/after start date (start too early?)"
    | some startObs =>
      match sorted.getLast? with
      | none => .error "No CPI data found"
      | some latestObs =>
        if startObs.2 ≤ 0 ∨ latestObs.2 ≤ 0 then .error "Invalid CPI values (<= 0)"
        else .ok (startObs.1, startObs.2, latestObs.1, latestObs.2)

/-! ### Chain-mode collector
(`datamapper_deflator_and_yearly_pcpipch`, src/main.rs lines 909-984) -/

/-- Annual inflation record (struct `YearInflation`, src/main.rs
lines 99-103). -/
structure YearInflation where
  year : Int
  pct : ℚ
deriving DecidableEq

/-- The inclusive year range `(start_year..=end_year).collect()`
(line 917): empty when `endYear < startYear`, else ascending. -/
def yearsRange (startYear endYear : Int) : List Int :=
  List.map (fun i : Nat => startYear + (i : Int)) (List.range (endYear + 1 - startYear).toNat)

/-- One iteration of the loop at lines 972-981: a year with numeric data
multiplies the deflator by `1 + pct/100`, records the rate, and becomes
the provisional `latest_year`; other years leave everything unchanged. -/
def chain_step (series : Int → Option ℚ) (acc : ℚ × Option Int × List YearInflation)
    (y : Int) : ℚ × Option Int × List YearInflation :=
  match series y with
  | some pi => (acc.1 * (1 + pi / 100), some y, acc.2.2 ++ [⟨y, pi⟩])
  | none => acc

/-- The chain-mode resolution slice of
`datamapper_deflator_and_yearly_pcpipch` (lines 968-984): `series` maps a
year to its numeric rate when the JSON response has one (`series.get`
followed by `as_f64`); fails when no year in the range had data. -/
def collect_yearly_chain (series : Int → Option ℚ) (startYear endYear : Int) :
    Except String (ℚ × Int × List YearInflation) :=
  let st := (yearsRange startYear endYear).foldl (chain_step series) (1, none, [])
  match st.2.1 with
  | none => .error "No numeric observations found"
  | some ly => .ok (st.1, ly, st.2.2)

/-! ### Disk cache
(the cache pattern of src/main.rs lines 609-636 and 741-766) -/

/-- Embeds the read-first/write-through cache pattern:
`let bytes = if use_cache { fs::read(&cache_file).ok() } else { None }`,
then on miss call `fetch` and persist best-effort
(`let _ = fs::write(...)`).  `store` is the readable cache contents,
`writeOk` models whether the best-effort persist succeeds, and the result
carries the bytes, the store after the call, and how many times `fetch`
ran (0 or 1). -/
def get_or_fetch (useCache : Bool) (writeOk : Bool)
    (store : String → Option (List Nat)) (key : String)
    (fetch : Except String (List Nat)) :
    Except String (List Nat × (String → Option (List Nat)) × Nat) :=
  match (if useCache then store key else none) with
  | some b => .ok (b, store, 0)
  | none =>
    match fetch with
    | .error e => .error e
    | .ok b =>
      .ok (b,
        (if useCache && writeOk then (fun k => if k = key then some b else store k)
         else store), 1)

/-- Number of `fetch` invocations a `get_or_fetch` call performed (the
error outcome also means `fetch` ran once, since only `fetch` can fail). -/
def fetchCalls : Except String (List Nat × (String → Option (List Nat)) × Nat) → Nat
  | .ok (_, _, c) => c
  | .error _ => 1

/-- Store left behind by a `get_or_fetch` call (empty on failure). -/
def storeAfter : Except String (List Nat × (String → Option (List Nat)) × Nat) →
    (String → Option (List Nat))
  | .ok (_, st, _) => st
  | .error _ => fun _ => none

/-! ### Declarative views used by the claim statements -/

/-- Rates the chain loop includes, in visit order: one `YearInflation`
per year of `l` that has numeric data. -/
def ratesOf (series : Int → Option ℚ) (l : List Int) : List YearInflation :=
  l.filterMap (fun y => (series y).map (fun pi => ⟨y, pi⟩))

/-- Provisional `latest_year` after visiting `l` starting from `ly0`:
each year with data overwrites it. -/
def lastDataYear (series : Int → Option ℚ) (l : List Int) (ly0 : Option Int) : Option Int :=
  l.foldl (fun acc y => if (series y).isSome then some y else acc) ly0

/-- The spec's worked chain example: rates `{2020: 10.0, 2021: -5.0}`. -/
def exSeries : Int → Option ℚ :=
  fun y => if y = 2020 then some 10 else if y = 2021 then some (-5) else none

/-- A concrete stand-in for the `f64` parser covering the spec's
observation-extraction example values. -/
def exParse : String → Option ℚ :=
  fun s => if s = "100.0" then some 100 else if s = "-1" then some (-1) else none

/-- The spec's codelist example: one `Code` with an English and a French
`Name` (`<str:Code id="POL"><com:Name xml:lang="en">Poland</com:Name>
<com:Name xml:lang="fr">Pologne</com:Name></str:Code>`). -/
def exBlocks : List CodeBlock :=
  [⟨"str:Code", [("id", "POL")],
    [⟨"com:Name", [("xml:lang", "en")], ["Poland"]⟩,
     ⟨"com:Name", [("xml:lang", "fr")], ["Pologne"]⟩]⟩]

/-- A `Code` block with `Name` children and text but no `id` attribute
(claim C10's subject). -/
def exNoIdBlock : CodeBlock :=
  ⟨"str:Code", [("urn", "X1")], [⟨"com:Name", [("xml:lang", "en")], ["Ghost"]⟩]⟩

/-- Modelled from the claim's words (C5): the shape
4-digit-year `-` 2-digit-month with month in `[1, 12]` (which is then
always a real calendar date).  Compared against what `parse_ym` accepts. -/
def claimShapeYM (l : List Char) : Bool :=
  match l with
  | [a, b, c, d, dash, e, f] =>
    a.isDigit && b.isDigit && c.isDigit && d.isDigit && decide (dash = '-') &&
      e.isDigit && f.isDigit &&
      (decide (1 ≤ 10 * (e.toNat - 48) + (f.toNat - 48)) &&
       decide (10 * (e.toNat - 48) + (f.toNat - 48) ≤ 12))
  | _ => false

/-! ## Supporting lemmas -/

theorem charListLe_refl : ∀ x : List Char, charListLe x x = true := by
  intro x
  induction x with
  | nil => rfl
  | cons a as ih => simp [charListLe, ih]

theorem charListLe_trans :
    ∀ {x y z : List Char}, charListLe x y = true → charListLe y z = true →
      charListLe x z = true := by
  intro x
  induction x with
  | nil => intro y z _ _; rfl
  | cons a as ih =>
    intro y z hxy hyz
    cases y with
    | nil => simp [charListLe] at hxy
    | cons b bs =>
      cases z with
      | nil => simp [charListLe] at hyz
      | cons c cs =>
        simp only [charListLe] at hxy hyz ⊢
        by_cases hab : a = b
        · subst hab
          rw [if_pos rfl] at hxy
          by_cases hac : a = c
          · subst hac
            rw [if_pos rfl] at hyz ⊢
            exact ih hxy hyz
          · rw [if_neg hac] at hyz ⊢
            exact hyz
        · rw [if_neg hab] at hxy
          by_cases hbc : b = c
          · subst hbc
            rw [if_neg hab]
            exact hxy
          · rw [if_neg hbc] at hyz
            have hac : a < c := lt_trans (of_decide_eq_true hxy) (of_decide_eq_true hyz)
            rw [if_neg (ne_of_lt hac)]
            exact decide_eq_true hac

theorem charListLe_total :
    ∀ x y : List Char, charListLe x y = true ∨ charListLe y x = true := by
  intro x
  induction x with
  | nil => intro y; left; rfl
  | cons a as ih =>
    intro y
    cases y with
    | nil => right; rfl
    | cons b bs =>
      by_cases hab : a = b
      · subst hab
        rcases ih bs with h | h
        · left; simpa [charListLe] using h
        · right; simpa [charListLe] using h
      · rcases lt_or_gt_of_ne hab with h | h
        · left; simp [charListLe, if_neg hab, h]
        · right
          have hba : b ≠ a := fun e => hab e.symm
          simp [charListLe, if_neg hba, h]

theorem charListLe_false_of_true_ne {x y : List Char}
    (h : charListLe x y = true) (hne : x ≠ y) : charListLe y x = false := by
  induction x generalizing y with
  | nil =>
    cases y with
    | nil => exact absurd rfl hne
    | cons b bs => simp [charListLe]
  | cons a as ih =>
    cases y with
    | nil => simp [charListLe] at h
    | cons b bs =>
      by_cases hab : a = b
      · subst hab
        simp only [charListLe, if_pos rfl] at h ⊢
        exact ih h (fun e => hne (by rw [e]))
      · have hba : b ≠ a := fun e => hab e.symm
        simp only [charListLe, if_neg hab] at h
        have hlt : a < b := of_decide_eq_true h
        simp [charListLe, if_neg hba, not_lt_of_gt hlt]

theorem localName_data_suffix (n : String) : (localName n).data <:+ n.data := by
  have h := List.takeWhile_append_dropWhile
    (p := fun c => decide (c ≠ ':')) (l := n.data.reverse)
  have h2 := congrArg List.reverse h
  rw [List.reverse_append, List.reverse_reverse] at h2
  exact ⟨_, h2⟩

theorem chain_deflator_pos {rates : List ℚ}
    (h : ∀ pi ∈ rates, 0 < 1 + pi / 100) : 0 < chain_deflator rates := by
  have aux : ∀ (l : List ℚ) (d : ℚ), 0 < d → (∀ pi ∈ l, 0 < 1 + pi / 100) →
      0 < l.foldl (fun d pi => d * (1 + pi / 100)) d := by
    intro l
    induction l with
    | nil => intro d hd _; simpa using hd
    | cons a l ih =>
      intro d hd hl
      simp only [List.foldl_cons]
      exact ih _ (mul_pos hd (hl a (List.mem_cons_self a l)))
        (fun pi hpi => hl pi (List.mem_cons_of_mem a hpi))
  exact aux rates 1 one_pos h

theorem digitChar_inj : ∀ a < 10, ∀ b < 10, Nat.digitChar a = Nat.digitChar b → a = b := by
  decide

theorem digitChar_isDigit : ∀ d < 10, (Nat.digitChar d).isDigit = true := by decide

theorem digitChar_ne_dash : ∀ d < 10, Nat.digitChar d ≠ '-' := by decide

theorem digitChar_ne_plus : ∀ d < 10, Nat.digitChar d ≠ '+' := by decide

theorem digitChar_not_ws : ∀ d < 10, (Nat.digitChar d).isWhitespace = false := by decide

theorem digitChar_toNat : ∀ d < 10, (Nat.digitChar d).toNat - 48 = d := by decide

theorem natDecimal_digits1 {y : Nat} (h0 : 0 < y) (h : y < 10) :
    natDecimal y = [Nat.digitChar y] := by
  have d1 : Nat.digits 10 y = y % 10 :: Nat.digits 10 (y / 10) :=
    Nat.digits_def' (by norm_num) h0
  have e1 : y / 10 = 0 := by omega
  have e2 : y % 10 = y := by omega
  rw [natDecimal, if_neg (by omega), d1, e1, e2, Nat.digits_zero]
  rfl

theorem natDecimal_digits2 {y : Nat} (h0 : 10 ≤ y) (h : y < 100) :
    natDecimal y = [Nat.digitChar (y / 10), Nat.digitChar (y % 10)] := by
  have d1 : Nat.digits 10 y = y % 10 :: Nat.digits 10 (y / 10) :=
    Nat.digits_def' (by norm_num) (by omega)
  have d2 : Nat.digits 10 (y / 10) = y / 10 % 10 :: Nat.digits 10 (y / 10 / 10) :=
    Nat.digits_def' (by norm_num) (by omega)
  have e1 : y / 10 / 10 = 0 := by omega
  have e2 : y / 10 % 10 = y / 10 := by omega
  rw [natDecimal, if_neg (by omega), d1, d2, e1, e2, Nat.digits_zero]
  rfl

theorem natDecimal_digits3 {y : Nat} (h0 : 100 ≤ y) (h : y < 1000) :
    natDecimal y =
      [Nat.digitChar (y / 10 / 10), Nat.digitChar (y / 10 % 10), Nat.digitChar (y % 10)] := by
  have d1 : Nat.digits 10 y = y % 10 :: Nat.digits 10 (y / 10) :=
    Nat.digits_def' (by norm_num) (by omega)
  have d2 : Nat.digits 10 (y / 10) = y / 10 % 10 :: Nat.digits 10 (y / 10 / 10) :=
    Nat.digits_def' (by norm_num) (by omega)
  have d3 : Nat.digits 10 (y / 10 / 10) = y / 10 / 10 % 10 :: Nat.digits 10 (y / 10 / 10 / 10) :=
    Nat.digits_def' (by norm_num) (by omega)
  have e1 : y / 10 / 10 / 10 = 0 := by omega
  have e2 : y / 10 / 10 % 10 = y / 10 / 10 := by omega
  rw [natDecimal, if_neg (by omega), d1, d2, d3, e1, e2, Nat.digits_zero]
  rfl

theorem natDecimal_digits4 {y : Nat} (h0 : 1000 ≤ y) (h : y < 10000) :
    natDecimal y =
      [Nat.digitChar (y / 10 / 10 / 10), Nat.digitChar (y / 10 / 10 % 10),
       Nat.digitChar (y / 10 % 10), Nat.digitChar (y % 10)] := by
  have d1 : Nat.digits 10 y = y % 10 :: Nat.digits 10 (y / 10) :=
    Nat.digits_def' (by norm_num) (by omega)
  have d2 : Nat.digits 10 (y / 10) = y / 10 % 10 :: Nat.digits 10 (y / 10 / 10) :=
    Nat.digits_def' (by norm_num) (by omega)
  have d3 : Nat.digits 10 (y / 10 / 10) = y / 10 / 10 % 10 :: Nat.digits 10 (y / 10 / 10 / 10) :=
    Nat.digits_def' (by norm_num) (by omega)
  have d4 : Nat.digits 10 (y / 10 / 10 / 10) =
      y / 10 / 10 / 10 % 10 :: Nat.digits 10 (y / 10 / 10 / 10 / 10) :=
    Nat.digits_def' (by norm_num) (by omega)
  have e1 : y / 10 / 10 / 10 / 10 = 0 := by omega
  have e2 : y / 10 / 10 / 10 % 10 = y / 10 / 10 / 10 := by omega
  rw [natDecimal, if_neg (by omega), d1, d2, d3, d4, e1, e2, Nat.digits_zero]
  rfl

theorem fmtNatPad_two {m : Nat} (h : m < 100) :
    fmtNatPad 2 m = [Nat.digitChar (m / 10), Nat.digitChar (m % 10)] := by
  rcases Nat.lt_or_ge m 10 with h10 | h10
  · rcases Nat.eq_zero_or_pos m with rfl | hpos
    · rfl
    · rw [fmtNatPad, natDecimal_digits1 hpos h10, padZero]
      rw [show m / 10 = 0 by omega, show m % 10 = m by omega]
      rfl
  · rw [fmtNatPad, natDecimal_digits2 h10 h, padZero]
    rfl

theorem fmtNatPad_four {y : Nat} (h : y < 10000) :
    fmtNatPad 4 y =
      [Nat.digitChar (y / 10 / 10 / 10), Nat.digitChar (y / 10 / 10 % 10),
       Nat.digitChar (y / 10 % 10), Nat.digitChar (y % 10)] := by
  rcases Nat.lt_or_ge y 10 with h10 | h10
  · rcases Nat.eq_zero_or_pos y with rfl | hpos
    · rfl
    · rw [fmtNatPad, natDecimal_digits1 hpos h10, padZero]
      rw [show y / 10 / 10 / 10 = 0 by omega, show y / 10 / 10 % 10 = 0 by omega,
        show y / 10 % 10 = 0 by omega, show y % 10 = y by omega]
      rfl
  · rcases Nat.lt_or_ge y 100 with h100 | h100
    · rw [fmtNatPad, natDecimal_digits2 h10 h100, padZero]
      rw [show y / 10 / 10 / 10 = 0 by omega, show y / 10 / 10 % 10 = 0 by omega,
        show y / 10 % 10 = y / 10 by omega]
      rfl
    · rcases Nat.lt_or_ge y 1000 with h1000 | h1000
      · rw [fmtNatPad, natDecimal_digits3 h100 h1000, padZero]
        rw [show y / 10 / 10 / 10 = 0 by omega, show y / 10 / 10 % 10 = y / 10 / 10 by omega]
        rfl
      · rw [fmtNatPad, natDecimal_digits4 h1000 h, padZero]
        rfl

theorem chain_foldl (series : Int → Option ℚ) :
    ∀ (l : List Int) (d0 : ℚ) (ly0 : Option Int) (r0 : List YearInflation),
      l.foldl (chain_step series) (d0, ly0, r0) =
        (d0 * ((ratesOf series l).map (fun r => 1 + r.pct / 100)).prod,
          lastDataYear series l ly0,
          r0 ++ ratesOf series l) := by
  intro l
  induction l with
  | nil => intro d0 ly0 r0; simp [ratesOf, lastDataYear]
  | cons y l ih =>
    intro d0 ly0 r0
    cases hs : series y with
    | some pi =>
      rw [List.foldl_cons]
      have hstep : chain_step series (d0, ly0, r0) y =
          (d0 * (1 + pi / 100), some y, r0 ++ [⟨y, pi⟩]) := by
        simp [chain_step, hs]
      rw [hstep, ih]
      simp [ratesOf, lastDataYear, List.filterMap_cons, hs, mul_assoc]
    | none =>
      rw [List.foldl_cons]
      have hstep : chain_step series (d0, ly0, r0) y = (d0, ly0, r0) := by
        simp [chain_step, hs]
      rw [hstep, ih]
      simp [ratesOf, lastDataYear, List.filterMap_cons, hs]

theorem lastDataYear_isSome (series : Int → Option ℚ) :
    ∀ (l : List Int) (y0 : Int), (lastDataYear series l (some y0)).isSome = true := by
  intro l
  induction l with
  | nil => intro y0; rfl
  | cons z l ih =>
    intro y0
    simp only [lastDataYear, List.foldl_cons]
    by_cases h : (series z).isSome
    · rw [if_pos h]; exact ih z
    · rw [if_neg h]; exact ih y0

theorem lastDataYear_none_iff (series : Int → Option ℚ) :
    ∀ l : List Int, lastDataYear series l none = none ↔ ∀ y ∈ l, series y = none := by
  intro l
  induction l with
  | nil => simp [lastDataYear]
  | cons z l ih =>
    simp only [lastDataYear, List.foldl_cons]
    by_cases h : (series z).isSome
    · rw [if_pos h]
      constructor
      · intro hc
        have hsome := lastDataYear_isSome series l z
        rw [show List.foldl (fun acc y => if (series y).isSome then some y else acc)
            (some z) l = lastDataYear series l (some z) from rfl] at hc
        rw [hc] at hsome
        cases hsome
      · intro hall
        have hzn := hall z (List.mem_cons_self z l)
        rw [hzn] at h
        simp at h
    · rw [if_neg h]
      rw [show List.foldl (fun acc y => if (series y).isSome then some y else acc)
          none l = lastDataYear series l none from rfl, ih]
      constructor
      · intro hall y hy
        rcases List.mem_cons.mp hy with rfl | hy2
        · exact Option.not_isSome_iff_eq_none.mp h
        · exact hall y hy2
      · intro hall y hy
        exact hall y (List.mem_cons_of_mem z hy)

theorem lastDataYear_from_some_spec (series : Int → Option ℚ) :
    ∀ (l : List Int) (y0 ly : Int),
      List.Pairwise (fun a b => a < b) l →
      lastDataYear series l (some y0) = some ly →
      (ly = y0 ∨ (ly ∈ l ∧ (series ly).isSome = true)) ∧
      (∀ y ∈ l, (series y).isSome = true → y ≤ ly) := by
  intro l
  induction l with
  | nil =>
    intro y0 ly _ h
    simp only [lastDataYear, List.foldl_nil, Option.some.injEq] at h
    exact ⟨Or.inl h.symm, by simp⟩
  | cons z l ih =>
    intro y0 ly hp h
    have hz : ∀ y ∈ l, z < y := fun y hy => List.rel_of_pairwise_cons hp hy
    simp only [lastDataYear, List.foldl_cons] at h
    by_cases hs : (series z).isSome
    · rw [if_pos hs] at h
      obtain ⟨h1, h2⟩ := ih z ly hp.of_cons h
      refine ⟨?_, ?_⟩
      · rcases h1 with h1 | ⟨hmem, hdata⟩
        · exact Or.inr ⟨h1 ▸ List.mem_cons_self z l, h1 ▸ hs⟩
        · exact Or.inr ⟨List.mem_cons_of_mem z hmem, hdata⟩
      · intro y hy hdy
        rcases List.mem_cons.mp hy with rfl | hy2
        · rcases h1 with h1 | ⟨hmem, _⟩
          · omega
          · exact le_of_lt (hz ly hmem)
        · exact h2 y hy2 hdy
    · rw [if_neg hs] at h
      obtain ⟨h1, h2⟩ := ih y0 ly hp.of_cons h
      refine ⟨?_, ?_⟩
      · rcases h1 with rfl | ⟨hmem, hdata⟩
        · exact Or.inl rfl
        · exact Or.inr ⟨List.mem_cons_of_mem z hmem, hdata⟩
      · intro y hy hdy
        rcases List.mem_cons.mp hy with rfl | hy2
        · rw [hdy] at hs; cases hs rfl
        · exact h2 y hy2 hdy

theorem lastDataYear_from_none_spec (series : Int → Option ℚ) :
    ∀ (l : List Int) (ly : Int),
      List.Pairwise (fun a b => a < b) l →
      lastDataYear series l none = some ly →
      (ly ∈ l ∧ (series ly).isSome = true) ∧
      (∀ y ∈ l, (series y).isSome = true → y ≤ ly) := by
  intro l
  induction l with
  | nil => intro ly _ h; cases h
  | cons z l ih =>
    intro ly hp h
    have hz : ∀ y ∈ l, z < y := fun y hy => List.rel_of_pairwise_cons hp hy
    simp only [lastDataYear, List.foldl_cons] at h
    by_cases hs : (series z).isSome
    · rw [if_pos hs] at h
      obtain ⟨h1, h2⟩ := lastDataYear_from_some_spec series l z ly hp.of_cons h
      refine ⟨?_, ?_⟩
      · rcases h1 with h1 | ⟨hmem, hdata⟩
        · exact ⟨h1 ▸ List.mem_cons_self z l, h1 ▸ hs⟩
        · exact ⟨List.mem_cons_of_mem z hmem, hdata⟩
      · intro y hy hdy
        rcases List.mem_cons.mp hy with rfl | hy2
        · rcases h1 with h1 | ⟨hmem, _⟩
          · omega
          · exact le_of_lt (hz ly hmem)
        · exact h2 y hy2 hdy
    · rw [if_neg hs] at h
      obtain ⟨⟨hmem, hdata⟩, h2⟩ := ih ly hp.of_cons h
      refine ⟨⟨List.mem_cons_of_mem z hmem, hdata⟩, ?_⟩
      · intro y hy hdy
        rcases List.mem_cons.mp hy with rfl | hy2
        · rw [hdy] at hs; cases hs rfl
        · exact h2 y hy2 hdy

theorem yearsRange_pairwise (s e : Int) :
    List.Pairwise (fun a b => a < b) (yearsRange s e) := by
  unfold yearsRange
  refine List.Pairwise.map _ ?_ (List.pairwise_lt_range (e + 1 - s).toNat)
  intro a b h
  show s + (a : Int) < s + (b : Int)
  omega

theorem hasBadOV_cons (parseVal : String → Option ℚ) (a : String × String)
    (rest : List (String × String)) :
    hasBadOV parseVal (a :: rest) =
      (isOV a && (parseVal a.2).isNone || hasBadOV parseVal rest) := by
  simp [hasBadOV]

theorem lastTPFrom_cons (t0 : Option String) (a : String × String)
    (rest : List (String × String)) :
    lastTPFrom t0 (a :: rest) = lastTPFrom (if isTP a then some a.2 else t0) rest := rfl

theorem ovFrom_cons (parseVal : String → Option ℚ) (v0 : Option ℚ)
    (a : String × String) (rest : List (String × String)) :
    ovFrom parseVal v0 (a :: rest) =
      ovFrom parseVal (if isOV a then parseVal a.2 else v0) rest := rfl

theorem scanObsAttrs_eq (parseVal : String → Option ℚ) :
    ∀ (attrs : List (String × String)) (t0 : Option String) (v0 : Option ℚ),
      scanObsAttrs parseVal attrs (t0, v0) =
        if hasBadOV parseVal attrs then .error "OBS_VALUE not numeric"
        else .ok (lastTPFrom t0 attrs, ovFrom parseVal v0 attrs) := by
  intro attrs
  induction attrs with
  | nil => intro t0 v0; simp [scanObsAttrs, hasBadOV, lastTPFrom, ovFrom]
  | cons a rest ih =>
    intro t0 v0
    by_cases htp : isTP a
    · have hov : isOV a = false := by simp [isOV, htp]
      have htps : suffixMatch a.1 "TIME_PERIOD" = true := htp
      simp only [scanObsAttrs, if_pos htps]
      rw [ih, hasBadOV_cons, lastTPFrom_cons, ovFrom_cons]
      simp [hov, htp]
    · have htpf : isTP a = false := by simpa using htp
      have htps : ¬ suffixMatch a.1 "TIME_PERIOD" = true := htp
      by_cases hobs : suffixMatch a.1 "OBS_VALUE"
      · have hisov : isOV a = true := by simp [isOV, htpf, hobs]
        cases hpv : parseVal a.2 with
        | some v =>
          simp only [scanObsAttrs, if_neg htps, if_pos hobs, hpv]
          rw [ih, hasBadOV_cons, lastTPFrom_cons, ovFrom_cons]
          simp [hisov, hpv, htpf]
        | none =>
          simp only [scanObsAttrs, if_neg htps, if_pos hobs, hpv]
          rw [hasBadOV_cons]
          simp [hisov, hpv]
      · have hisov : isOV a = false := by simp [isOV, htpf, hobs]
        simp only [scanObsAttrs, if_neg htps, if_neg hobs]
        rw [ih, hasBadOV_cons, lastTPFrom_cons, ovFrom_cons]
        simp [hisov, htpf]

theorem obs_step_eq (parseVal : String → Option ℚ) (acc : List (String × ℚ))
    (ev : XEvent) :
    obs_step parseVal acc ev =
      if obsBadEvent parseVal ev then .error "OBS_VALUE not numeric"
      else .ok (acc ++ (obsEmit parseVal ev).toList) := by
  cases ev with
  | textE t => simp [obs_step, obsBadEvent, obsEmit]
  | endE n => simp [obs_step, obsBadEvent, obsEmit]
  | startE n attrs =>
    by_cases hn : suffixMatch n "Obs"
    · simp only [obs_step, obsBadEvent, obsEmit, if_pos hn, hn, Bool.true_and]
      rw [scanObsAttrs_eq]
      by_cases hbad : hasBadOV parseVal attrs
      · simp [hbad]
      · simp only [hbad, if_neg, Bool.false_eq_true, not_false_eq_true, if_false]
        cases htp : lastTPFrom none attrs with
        | none => simp [htp]
        | some t =>
          cases hov : ovFrom parseVal none attrs with
          | none => simp [htp, hov]
          | some v =>
            by_cases hv : 0 < v
            · simp [htp, hov, hv]
            · simp [htp, hov, hv]
    · simp [obs_step, obsBadEvent, obsEmit, hn]
  | emptyE n attrs =>
    by_cases hn : suffixMatch n "Obs"
    · simp only [obs_step, obsBadEvent, obsEmit, if_pos hn, hn, Bool.true_and]
      rw [scanObsAttrs_eq]
      by_cases hbad : hasBadOV parseVal attrs
      · simp [hbad]
      · simp only [hbad, if_neg, Bool.false_eq_true, not_false_eq_true, if_false]
        cases htp : lastTPFrom none attrs with
        | none => simp [htp]
        | some t =>
          cases hov : ovFrom parseVal none attrs with
          | none => simp [htp, hov]
          | some v =>
            by_cases hv : 0 < v
            · simp [htp, hov, hv]
            · simp [htp, hov, hv]
    · simp [obs_step, obsBadEvent, obsEmit, hn]

theorem obs_loop_eq (parseVal : String → Option ℚ) :
    ∀ (events : List XEvent) (acc : List (String × ℚ)),
      obs_loop parseVal events acc =
        if events.any (obsBadEvent parseVal) then .error "OBS_VALUE not numeric"
        else .ok (acc ++ events.filterMap (obsEmit parseVal)) := by
  intro events
  induction events with
  | nil => intro acc; simp [obs_loop]
  | cons ev rest ih =>
    intro acc
    simp only [obs_loop, obs_step_eq]
    by_cases hbad : obsBadEvent parseVal ev
    · simp [hbad]
    · simp only [hbad, Bool.false_eq_true, not_false_eq_true, if_neg, if_false]
      rw [ih]
      cases hemit : obsEmit parseVal ev with
      | none => simp [hbad, List.filterMap_cons, hemit]
      | some r => simp [hbad, List.filterMap_cons, hemit]

theorem suffix_len_eq {l₁ l₂ l : List Char} (h₁ : l₁ <:+ l) (h₂ : l₂ <:+ l)
    (hlen : l₁.length = l₂.length) : l₁ = l₂ := by
  rw [List.suffix_iff_eq_drop] at h₁ h₂
  rw [h₁, h₂, hlen]

theorem name_not_code {n : String} (h : suffixMatch n "Name" = true) :
    suffixMatch n "Code" = false := by
  by_contra hc
  have hc2 : suffixMatch n "Code" = true := by
    revert hc; cases suffixMatch n "Code" <;> simp
  have s1 : "Name".data <:+ n.data := List.isSuffixOf_iff_suffix.mp h
  have s2 : "Code".data <:+ n.data := List.isSuffixOf_iff_suffix.mp hc2
  exact absurd (suffix_len_eq s1 s2 (by decide)) (by decide)

theorem code_not_name {n : String} (h : suffixMatch n "Code" = true) :
    suffixMatch n "Name" = false := by
  by_contra hc
  have hc2 : suffixMatch n "Name" = true := by
    revert hc; cases suffixMatch n "Name" <;> simp
  have s1 : "Code".data <:+ n.data := List.isSuffixOf_iff_suffix.mp h
  have s2 : "Name".data <:+ n.data := List.isSuffixOf_iff_suffix.mp hc2
  exact absurd (suffix_len_eq s1 s2 (by decide)) (by decide)

theorem lastIdAttr_eq_none {attrs : List (String × String)}
    (h : ∀ a ∈ attrs, suffixMatch a.1 "id" = false) : lastIdAttr attrs = none := by
  have aux : ∀ (l : List (String × String)) (acc : Option String),
      (∀ a ∈ l, suffixMatch a.1 "id" = false) →
      l.foldl (fun acc a => if suffixMatch a.1 "id" then some a.2 else acc) acc = acc := by
    intro l
    induction l with
    | nil => intro acc _; rfl
    | cons a l ih =>
      intro acc hl
      rw [List.foldl_cons, if_neg (by simp [hl a (List.mem_cons_self a l)])]
      exact ih acc (fun x hx => hl x (List.mem_cons_of_mem a hx))
  exact aux attrs none h

theorem code_texts_capture (ts : List String) :
    ∀ (idv cur : Option String) (out : List Item),
      (ts.map XEvent.textE).foldl code_step (⟨true, idv, cur, true⟩, out) =
        (⟨true, idv, lastTextOr cur ts, true⟩, out) := by
  induction ts with
  | nil => intro idv cur out; simp [lastTextOr]
  | cons t ts ih =>
    intro idv cur out
    simp only [List.map_cons, List.foldl_cons]
    have hstep : code_step (⟨true, idv, cur, true⟩, out) (XEvent.textE t) =
        (⟨true, idv, some t, true⟩, out) := by
      simp [code_step]
    rw [hstep, ih]
    simp [lastTextOr]

theorem code_texts_nocapture (ts : List String) :
    ∀ (idv cur : Option String) (out : List Item),
      (ts.map XEvent.textE).foldl code_step (⟨true, idv, cur, false⟩, out) =
        (⟨true, idv, cur, false⟩, out) := by
  induction ts with
  | nil => intro idv cur out; rfl
  | cons t ts ih =>
    intro idv cur out
    simp only [List.map_cons, List.foldl_cons]
    have hstep : code_step (⟨true, idv, cur, false⟩, out) (XEvent.textE t) =
        (⟨true, idv, cur, false⟩, out) := by
      simp [code_step]
    rw [hstep, ih]

theorem code_run_child (c : NameChild) (hc : childWF c) :
    ∀ (idv cur : Option String) (cap : Bool) (out : List Item),
      (renderChild c).foldl code_step (⟨true, idv, cur, cap⟩, out) =
        (⟨true, idv, childName cur c, false⟩, out) := by
  intro idv cur cap out
  have hcname : suffixMatch c.tag "Name" = true := hc
  have hcn : suffixMatch c.tag "Code" = false := name_not_code hc
  unfold renderChild
  rw [List.foldl_cons]
  have hstart : code_step (⟨true, idv, cur, cap⟩, out) (XEvent.startE c.tag c.attrs) =
      (⟨true, idv, cur, isEnAttrs c.attrs || cur.isNone⟩, out) := by
    simp [code_step, hcn, hcname]
  rw [hstart, List.foldl_append]
  have hend : ∀ (nm : Option String) (cp : Bool),
      [XEvent.endE c.tag].foldl code_step (⟨true, idv, nm, cp⟩, out) =
        (⟨true, idv, nm, false⟩, out) := by
    intro nm cp
    simp [code_step, hcname, hcn]
  by_cases hcap : (isEnAttrs c.attrs || cur.isNone) = true
  · rw [hcap, code_texts_capture, hend]
    simp [childName, hcap]
  · have hcapf : (isEnAttrs c.attrs || cur.isNone) = false := by
      revert hcap; cases isEnAttrs c.attrs || cur.isNone <;> simp
    rw [hcapf, code_texts_nocapture, hend]
    have : childName cur c = cur := by
      unfold childName
      rw [if_neg (by simp [hcapf])]
    rw [this]

theorem code_run_children (cs : List NameChild) :
    ∀ (idv cur : Option String) (out : List Item), (∀ c ∈ cs, childWF c) →
      (cs.flatMap renderChild).foldl code_step (⟨true, idv, cur, false⟩, out) =
        (⟨true, idv, cs.foldl childName cur, false⟩, out) := by
  induction cs with
  | nil => intro idv cur out _; rfl
  | cons c cs ih =>
    intro idv cur out h
    rw [List.flatMap_cons, List.foldl_append,
      code_run_child c (h c (List.mem_cons_self c cs)), List.foldl_cons]
    exact ih idv (childName cur c) out (fun x hx => h x (List.mem_cons_of_mem c hx))

theorem code_run_block (b : CodeBlock) (hb : blockWF b) (idv nm : Option String)
    (out : List Item) :
    ∃ nm2, (renderBlock b).foldl code_step (⟨false, idv, nm, false⟩, out) =
      (⟨false, none, nm2, false⟩, out ++ (blockItem b).toList) := by
  have hcn : suffixMatch b.tag "Name" = false := code_not_name hb.1
  unfold renderBlock
  rw [List.foldl_cons]
  have hstart : code_step (⟨false, idv, nm, false⟩, out) (XEvent.startE b.tag b.attrs) =
      (⟨true, lastIdAttr b.attrs, none, false⟩, out) := by
    simp [code_step, hb.1]
  rw [hstart, List.foldl_append, code_run_children b.children _ _ _ hb.2]
  cases hid : lastIdAttr b.attrs with
  | some id =>
    refine ⟨none, ?_⟩
    simp [code_step, hcn, hb.1, hid, blockItem, blockName]
  | none =>
    refine ⟨b.children.foldl childName none, ?_⟩
    simp [code_step, hcn, hb.1, hid, blockItem, blockName]

theorem code_run_doc (bs : List CodeBlock) :
    ∀ (idv nm : Option String) (out : List Item), (∀ b ∈ bs, blockWF b) →
      ∃ idv2 nm2, (renderDoc bs).foldl code_step (⟨false, idv, nm, false⟩, out) =
        (⟨false, idv2, nm2, false⟩, out ++ bs.filterMap blockItem) := by
  induction bs with
  | nil => intro idv nm out _; exact ⟨idv, nm, by simp [renderDoc]⟩
  | cons b bs ih =>
    intro idv nm out h
    unfold renderDoc
    rw [List.flatMap_cons, List.foldl_append]
    obtain ⟨nm2, hb2⟩ := code_run_block b (h b (List.mem_cons_self b bs)) idv nm out
    rw [hb2]
    obtain ⟨idv2, nm3, hrest⟩ :=
      ih none nm2 (out ++ (blockItem b).toList) (fun x hx => h x (List.mem_cons_of_mem b hx))
    rw [show bs.flatMap renderBlock = renderDoc bs from rfl, hrest]
    refine ⟨idv2, nm3, ?_⟩
    cases hbi : blockItem b <;> simp [List.filterMap_cons, hbi]

theorem find_ge_first {startP : String} :
    ∀ (l : List (String × ℚ)) (x : String × ℚ),
      List.Pairwise obsLe l →
      l.find? (fun p => strLe startP p.1) = some x →
      strLe startP x.1 = true ∧ x ∈ l ∧
        ∀ y ∈ l, strLe startP y.1 = true → strLe x.1 y.1 = true := by
  intro l
  induction l with
  | nil => intro x _ hf; cases hf
  | cons a l ih =>
    intro x hpw hf
    by_cases ha : strLe startP a.1 = true
    · rw [@List.find?_cons_of_pos _ (fun p => strLe startP p.1) a l ha] at hf
      injection hf with hf
      subst hf
      refine ⟨ha, List.mem_cons_self _ _, ?_⟩
      intro y hy _
      rcases List.mem_cons.mp hy with rfl | hy2
      · exact charListLe_refl _
      · exact List.rel_of_pairwise_cons hpw hy2
    · rw [@List.find?_cons_of_neg _ (fun p => strLe startP p.1) a l (by simpa using ha)] at hf
      obtain ⟨h1, h2, h3⟩ := ih x hpw.of_cons hf
      refine ⟨h1, List.mem_cons_of_mem a h2, ?_⟩
      intro y hy hsy
      rcases List.mem_cons.mp hy with rfl | hy2
      · exact absurd hsy ha
      · exact h3 y hy2 hsy

theorem getLast_max :
    ∀ (l : List (String × ℚ)) (x : String × ℚ),
      List.Pairwise obsLe l → l.getLast? = some x →
      x ∈ l ∧ ∀ y ∈ l, strLe y.1 x.1 = true := by
  intro l
  induction l with
  | nil => intro x _ hl; cases hl
  | cons a l ih =>
    intro x hpw hl
    cases l with
    | nil =>
      injection hl with hl
      subst hl
      refine ⟨List.mem_cons_self _ _, ?_⟩
      intro y hy
      rcases List.mem_cons.mp hy with rfl | hy2
      · exact charListLe_refl _
      · cases hy2
    | cons b l2 =>
      rw [List.getLast?_cons_cons] at hl
      obtain ⟨h1, h2⟩ := ih x hpw.of_cons hl
      refine ⟨List.mem_cons_of_mem a h1, ?_⟩
      intro y hy
      rcases List.mem_cons.mp hy with rfl | hy2
      · exact List.rel_of_pairwise_cons hpw h1
      · exact h2 y hy2

theorem splitDash_nodash :
    ∀ l : List Char, (∀ ch ∈ l, ch ≠ '-') → splitDash l = [l] := by
  intro l
  induction l with
  | nil => intro _; rfl
  | cons c rest ih =>
    intro h
    rw [splitDash, if_neg (h c (List.mem_cons_self c rest)),
      ih (fun ch hch => h ch (List.mem_cons_of_mem c hch))]

theorem splitDash_append :
    ∀ l₁ l₂ : List Char, (∀ ch ∈ l₁, ch ≠ '-') →
      splitDash (l₁ ++ '-' :: l₂) = l₁ :: splitDash l₂ := by
  intro l₁
  induction l₁ with
  | nil =>
    intro l₂ _
    simp only [List.nil_append]
    rw [splitDash, if_pos rfl]
  | cons c rest ih =>
    intro l₂ h
    simp only [List.cons_append]
    rw [splitDash, if_neg (h c (List.mem_cons_self c rest)),
      ih l₂ (fun ch hch => h ch (List.mem_cons_of_mem c hch))]

theorem dotToUnderscore_of_clean :
    ∀ {l : List Char}, '.' ∉ l → dotToUnderscore l = l := by
  intro l
  induction l with
  | nil => intro _; rfl
  | cons c rest ih =>
    intro h
    have hc : c ≠ '.' := fun e => h (e ▸ List.mem_cons_self c rest)
    unfold dotToUnderscore
    rw [List.map_cons, if_neg hc]
    have := ih (fun hm => h (List.mem_cons_of_mem c hm))
    unfold dotToUnderscore at this
    rw [this]

theorem stripDashes_sdmx_period {y m : Nat} (hy : y < 10000) (hm : m < 100) :
    stripDashes (sdmx_period y m) =
      [Nat.digitChar (y / 10 / 10 / 10), Nat.digitChar (y / 10 / 10 % 10),
       Nat.digitChar (y / 10 % 10), Nat.digitChar (y % 10), 'M',
       Nat.digitChar (m / 10), Nat.digitChar (m % 10)] := by
  have n1 := digitChar_ne_dash (y / 10 / 10 / 10) (by omega)
  have n2 := digitChar_ne_dash (y / 10 / 10 % 10) (by omega)
  have n3 := digitChar_ne_dash (y / 10 % 10) (by omega)
  have n4 := digitChar_ne_dash (y % 10) (by omega)
  have n5 := digitChar_ne_dash (m / 10) (by omega)
  have n6 := digitChar_ne_dash (m % 10) (by omega)
  unfold sdmx_period stripDashes
  rw [fmtNatPad_four hy, fmtNatPad_two hm]
  simp [List.filter_cons, n1, n2, n3, n4, n5, n6]

/-! ## Claim theorems -/

/-- Claim C9: for every nominal amount and every pair of equal positive
index levels, ratio mode computes `real == nominal` and `loss_pct == 0`
exactly; and, given the positivity invariant on index values and on chain
factors, neither mode divides by zero — the ratio-mode divisor
(`cpi_latest`) is nonzero and the chain deflator, a product of strictly
positive factors, is strictly positive hence nonzero (the zero-change
chain case `deflator = 1` likewise returns the nominal unchanged). -/
theorem ratio_and_chain_no_div_by_zero (nominal s l : ℚ) (rates : List ℚ) :
    (s = l → 0 < l → ratio_mode nominal s l = (nominal, 0, 0)) ∧
    (0 < l → l ≠ 0) ∧
    ((∀ pi ∈ rates, 0 < 1 + pi / 100) →
      0 < chain_deflator rates ∧ chain_deflator rates ≠ 0) ∧
    chain_mode nominal 1 = (nominal, 0, 0) := by
  refine ⟨?_, ?_, ?_, ?_⟩
  · rintro rfl hl
    have hne : s ≠ 0 := ne_of_gt hl
    simp [ratio_mode, div_self hne]
  · exact fun h => ne_of_gt h
  · intro h
    have hpos := chain_deflator_pos h
    exact ⟨hpos, ne_of_gt hpos⟩
  · simp [chain_mode]

theorem ratio_and_chain_no_div_by_zero_witness :
    ratio_mode 100000 100 100 = (100000, 0, 0) ∧
      0 < chain_deflator [10, -5] := by
  constructor
  · exact (ratio_and_chain_no_div_by_zero 100000 100 100 []).1 rfl (by norm_num)
  · exact ((ratio_and_chain_no_div_by_zero 100000 100 100 [10, -5]).2.2.1
      (by intro pi hpi; fin_cases hpi <;> norm_num)).1

/-- Claim C6 counterexample: the claim states that a name whose post-colon
local part differs from the target — such as the attribute name `grid`
against target `id` — does not match.  The source matches with a plain
`ends_with`, so `grid` does match `id` although its local name is `grid`,
not `id`. -/
theorem suffix_match_counterexample :
    suffixMatch "grid" "id" = true ∧ localName "grid" = "grid" ∧
      localName "grid" ≠ "id" := by decide

/-- Claim C6 amended: matching is plain suffix matching — a name matches
the target iff its characters end with the target's.  Every name whose
post-colon local part equals the target therefore matches, but so do
names such as `grid` against `id` whose local part differs from the
target. -/
theorem suffix_match_amended (n t : String) :
    (localName n = t → suffixMatch n t = true) ∧
      (suffixMatch n t = true ↔ t.data <:+ n.data) := by
  constructor
  · rintro rfl
    exact List.isSuffixOf_iff_suffix.mpr (localName_data_suffix n)
  · exact List.isSuffixOf_iff_suffix

theorem suffix_match_amended_witness : suffixMatch "xml:lang" "lang" = true :=
  (suffix_match_amended "xml:lang" "lang").1 (by decide)

/-- Claim C7 counterexample: the claim concludes that with caching enabled
calling twice with the same key invokes fetch at most once; but when the
best-effort persist fails (the unwritable-directory case the claim itself
allows), nothing is stored, the second read misses again, and fetch runs
twice. -/
theorem get_or_fetch_counterexample :
    fetchCalls (get_or_fetch true false (fun _ => none) "k" (.ok [1])) +
      fetchCalls (get_or_fetch true false
        (storeAfter (get_or_fetch true false (fun _ => none) "k" (.ok [1])))
        "k" (.ok [1])) = 2 := rfl

/-- Claim C7 amended: with caching disabled `get_or_fetch` always calls
fetch; with caching enabled a read hit returns the cached bytes unchanged
without fetching, a miss calls fetch exactly once and — when persistence
succeeds — stores the bytes under the key before returning them, and a
persistence failure does not fail the overall operation; consequently,
when caching is enabled, persistence succeeds and fetch succeeds, calling
twice with the same key invokes fetch at most once. -/
theorem get_or_fetch_spec :
    (∀ (w : Bool) st (key : String) f,
      get_or_fetch false w st key f =
        match f with
        | .ok b => .ok (b, st, 1)
        | .error e => .error e) ∧
    (∀ (w : Bool) st (key : String) f b, st key = some b →
      get_or_fetch true w st key f = .ok (b, st, 0)) ∧
    (∀ (w : Bool) st (key : String) b, st key = none →
      ∃ st2, get_or_fetch true w st key (.ok b) = .ok (b, st2, 1) ∧
        (w = true → st2 key = some b) ∧ (w = false → st2 = st)) ∧
    (∀ st (key : String) b b2,
      fetchCalls (get_or_fetch true true st key (.ok b)) +
        fetchCalls (get_or_fetch true true
          (storeAfter (get_or_fetch true true st key (.ok b))) key (.ok b2)) ≤ 1) := by
  refine ⟨?_, ?_, ?_, ?_⟩
  · intro w st key f
    cases f <;> rfl
  · intro w st key f b h
    simp [get_or_fetch, h]
  · intro w st key b h
    cases w
    · exact ⟨st, by simp [get_or_fetch, h], by simp, fun _ => rfl⟩
    · refine ⟨fun k => if k = key then some b else st k, by simp [get_or_fetch, h], ?_, ?_⟩
      · intro _; simp
      · intro hw; cases hw
  · intro st key b b2
    cases hsk : st key with
    | some c =>
      simp [get_or_fetch, hsk, fetchCalls, storeAfter]
    | none =>
      simp [get_or_fetch, hsk, fetchCalls, storeAfter]

theorem get_or_fetch_spec_witness :
    get_or_fetch true true (fun _ => some [7]) "k" (.error "down") =
      .ok ([7], (fun _ => some [7]), 0) :=
  get_or_fetch_spec.2.1 true (fun _ => some [7]) "k" (.error "down") [7] rfl

/-- Claim C2: over any inclusive year range and rate lookup, the chain
resolver visits years in ascending order (the included rates are pairwise
increasing in year), skips years with no entry entirely (the included
rates are exactly the years with numeric data, never a substituted 0%),
returns the deflator as the product of `1 + pct/100` over exactly those
years, returns `latest_year` as the greatest year that had data, and
fails precisely when no year in the range had any data. -/
theorem collect_yearly_chain_spec (series : Int → Option ℚ) (s e : Int) :
    (collect_yearly_chain series s e = .error "No numeric observations found" ↔
      ∀ y ∈ yearsRange s e, series y = none) ∧
    (∀ d ly rates, collect_yearly_chain series s e = .ok (d, ly, rates) →
      rates = ratesOf series (yearsRange s e) ∧
      d = (rates.map (fun r => 1 + r.pct / 100)).prod ∧
      rates.Pairwise (fun r1 r2 => r1.year < r2.year) ∧
      ly ∈ yearsRange s e ∧ (series ly).isSome = true ∧
      (∀ y ∈ yearsRange s e, (series y).isSome = true → y ≤ ly)) := by
  have hfold := chain_foldl series (yearsRange s e) 1 none []
  have hcol : collect_yearly_chain series s e =
      match lastDataYear series (yearsRange s e) none with
      | none => .error "No numeric observations found"
      | some ly =>
        .ok (1 * ((ratesOf series (yearsRange s e)).map (fun r => 1 + r.pct / 100)).prod,
          ly, [] ++ ratesOf series (yearsRange s e)) := by
    unfold collect_yearly_chain
    rw [hfold]
  rcases hldy : lastDataYear series (yearsRange s e) none with _ | ly0
  · constructor
    · rw [hcol, hldy]
      constructor
      · intro _
        exact (lastDataYear_none_iff series (yearsRange s e)).mp hldy
      · intro _
        rfl
    · intro d ly rates hok
      rw [hcol, hldy] at hok
      simp at hok
  · constructor
    · rw [hcol, hldy]
      constructor
      · intro h
        simp at h
      · intro hall
        have hn := (lastDataYear_none_iff series (yearsRange s e)).mpr hall
        rw [hldy] at hn
        cases hn
    · intro d ly rates hok
      rw [hcol, hldy] at hok
      simp only [Except.ok.injEq, Prod.mk.injEq] at hok
      obtain ⟨hd, hly, hr⟩ := hok
      subst hd
      subst hly
      subst hr
      obtain ⟨⟨hmem, hdata⟩, hbound⟩ :=
        lastDataYear_from_none_spec series (yearsRange s e) ly0
          (yearsRange_pairwise s e) hldy
      refine ⟨by simp, by simp, ?_, hmem, hdata, hbound⟩
      refine List.Pairwise.filterMap _ ?_ (yearsRange_pairwise s e)
      intro a a2 hlt b hb b2 hb2
      cases hsa : series a with
      | none => rw [hsa] at hb; simp at hb
      | some pi =>
        cases hsa2 : series a2 with
        | none => rw [hsa2] at hb2; simp at hb2
        | some pi2 =>
          rw [hsa] at hb
          rw [hsa2] at hb2
          simp only [Option.map_some'] at hb hb2
          injection hb with hb
          injection hb2 with hb2
          subst hb
          subst hb2
          simpa using hlt

theorem collect_yearly_chain_spec_witness :
    collect_yearly_chain exSeries 2020 2021 =
      .ok (209 / 200, 2021, [⟨2020, 10⟩, ⟨2021, -5⟩]) ∧
    (209 / 200 : ℚ) = (([⟨2020, (10 : ℚ)⟩, ⟨2021, -5⟩] : List YearInflation).map
      (fun r => 1 + r.pct / 100)).prod ∧
    (2021 : Int) ∈ yearsRange 2020 2021 := by
  have h : collect_yearly_chain exSeries 2020 2021 =
      .ok (209 / 200, 2021, [⟨2020, 10⟩, ⟨2021, -5⟩]) := by
    norm_num [collect_yearly_chain, yearsRange, chain_step, exSeries, List.range,
      List.range.loop, YearInflation.mk.injEq]
  have hs := (collect_yearly_chain_spec exSeries 2020 2021).2 _ _ _ h
  exact ⟨h, hs.2.1, hs.2.2.2.1⟩

/-- Claim C3: observation-mode extraction emits a record for an `Obs`
element — an `Event::Start` and an `Event::Empty` are treated identically —
if and only if a `TIME_PERIOD` attribute and an `OBS_VALUE` attribute are
both present and the parsed `OBS_VALUE` is strictly positive (`obsEmit`
states exactly this per-event rule); partial or non-positive records are
silently dropped (the output is precisely the `filterMap` of that rule, no
error); and the whole extraction fails exactly when some `Obs` element has
an `OBS_VALUE` attribute that does not parse as a number. -/
theorem extract_observations_spec (parseVal : String → Option ℚ)
    (events : List XEvent) :
    (extract_observations parseVal events = .error "OBS_VALUE not numeric" ↔
      ∃ ev ∈ events, obsBadEvent parseVal ev = true) ∧
    (∀ out, extract_observations parseVal events = .ok out →
      out = events.filterMap (obsEmit parseVal)) ∧
    (∀ n attrs,
      obsEmit parseVal (XEvent.startE n attrs) = obsEmit parseVal (XEvent.emptyE n attrs) ∧
      obsBadEvent parseVal (XEvent.startE n attrs) =
        obsBadEvent parseVal (XEvent.emptyE n attrs)) := by
  have h := obs_loop_eq parseVal events []
  refine ⟨?_, ?_, ?_⟩
  · rw [extract_observations, h]
    by_cases hbad : events.any (obsBadEvent parseVal)
    · rw [if_pos hbad]
      exact iff_of_true rfl (List.any_eq_true.mp hbad)
    · rw [if_neg hbad]
      refine iff_of_false ?_ ?_
      · intro hc
        simp at hc
      · intro hex
        exact absurd (List.any_eq_true.mpr hex) hbad
  · intro out hout
    rw [extract_observations, h] at hout
    by_cases hbad : events.any (obsBadEvent parseVal)
    · rw [if_pos hbad] at hout
      simp at hout
    · rw [if_neg hbad] at hout
      simp only [Except.ok.injEq] at hout
      rw [← hout]
      simp
  · intro n attrs
    exact ⟨rfl, rfl⟩

theorem extract_observations_spec_witness :
    extract_observations exParse
      [XEvent.emptyE "Obs" [("TIME_PERIOD", "2020-M01"), ("OBS_VALUE", "100.0")],
       XEvent.emptyE "Obs" [("TIME_PERIOD", "2020-M02"), ("OBS_VALUE", "-1")]] =
      .ok [("2020-M01", 100)] ∧
    ([("2020-M01", (100 : ℚ))] =
      ([XEvent.emptyE "Obs" [("TIME_PERIOD", "2020-M01"), ("OBS_VALUE", "100.0")],
        XEvent.emptyE "Obs" [("TIME_PERIOD", "2020-M02"), ("OBS_VALUE", "-1")]].filterMap
          (obsEmit exParse))) := by
  have h : extract_observations exParse
      [XEvent.emptyE "Obs" [("TIME_PERIOD", "2020-M01"), ("OBS_VALUE", "100.0")],
       XEvent.emptyE "Obs" [("TIME_PERIOD", "2020-M02"), ("OBS_VALUE", "-1")]] =
      .ok [("2020-M01", 100)] := rfl
  exact ⟨h, (extract_observations_spec exParse _).2.1 _ h⟩

/-- Claim C4: for a codelist document of `Code` blocks with `Name`
children, the committed name of each block follows English-wins/first-wins
precedence, stated by `childName`: an English-tagged `Name`'s text is
captured even when a name was already captured; a non-English `Name`'s
text is captured only when no name has been captured yet (so one appearing
after an English `Name` that supplied text is ignored); and the name
defaults to the code string itself when no `Name` text was ever captured
(`blockItem`'s `getD`). -/
theorem code_extraction_precedence (bs : List CodeBlock)
    (h : ∀ b ∈ bs, blockWF b) :
    extract_codes (renderDoc bs) = bs.filterMap blockItem := by
  obtain ⟨idv2, nm2, hrun⟩ := code_run_doc bs none none [] h
  unfold extract_codes initCodeState
  rw [hrun]
  simp

theorem code_extraction_precedence_witness :
    extract_codes (renderDoc exBlocks) = [⟨"POL", "Poland"⟩] ∧
    exBlocks.filterMap blockItem = [⟨"POL", "Poland"⟩] := by
  have h2 : exBlocks.filterMap blockItem = [⟨"POL", "Poland"⟩] := by decide
  have h := code_extraction_precedence exBlocks (by
    intro b hb
    fin_cases hb
    refine ⟨by decide, ?_⟩
    intro c hc
    fin_cases hc <;> (unfold childWF; decide))
  exact ⟨h.trans h2, h2⟩

/-- Claim C10: a `Code` block none of whose attributes matches `id`
commits no entry on close — even when it contains `Name` children with
text — and it does not disturb the entries committed for the other `Code`
blocks of the document (the extraction loop itself has no failure path in
this region: attribute-decode errors belong to the XML layer outside this
logic, so skipping is silent). -/
theorem code_without_id_skipped (pre post : List CodeBlock) (b : CodeBlock)
    (hpre : ∀ x ∈ pre, blockWF x) (hb : blockWF b)
    (hpost : ∀ x ∈ post, blockWF x)
    (hid : ∀ a ∈ b.attrs, suffixMatch a.1 "id" = false) :
    extract_codes (renderDoc (pre ++ b :: post)) =
      extract_codes (renderDoc (pre ++ post)) := by
  have hidn : lastIdAttr b.attrs = none := lastIdAttr_eq_none hid
  have hall1 : ∀ x ∈ pre ++ b :: post, blockWF x := by
    intro x hx
    rcases List.mem_append.mp hx with hx | hx
    · exact hpre x hx
    · rcases List.mem_cons.mp hx with rfl | hx
      · exact hb
      · exact hpost x hx
  have hall2 : ∀ x ∈ pre ++ post, blockWF x := by
    intro x hx
    rcases List.mem_append.mp hx with hx | hx
    · exact hpre x hx
    · exact hpost x hx
  obtain ⟨i1, n1, h1⟩ := code_run_doc (pre ++ b :: post) none none [] hall1
  obtain ⟨i2, n2, h2⟩ := code_run_doc (pre ++ post) none none [] hall2
  unfold extract_codes initCodeState
  rw [h1, h2]
  simp [List.filterMap_append, List.filterMap_cons, blockItem, hidn]

theorem code_without_id_skipped_witness :
    extract_codes (renderDoc (exBlocks ++ exNoIdBlock :: [])) =
      extract_codes (renderDoc (exBlocks ++ [])) ∧
    extract_codes (renderDoc (exBlocks ++ exNoIdBlock :: [])) = [⟨"POL", "Poland"⟩] := by
  have h := code_without_id_skipped exBlocks [] exNoIdBlock
    (by
      intro b hb
      fin_cases hb
      refine ⟨by decide, ?_⟩
      intro c hc
      fin_cases hc <;> (unfold childWF; decide))
    (by
      refine ⟨by decide, ?_⟩
      intro c hc
      fin_cases hc <;> (unfold childWF; decide))
    (by intro x hx; cases hx)
    (by intro a ha; fin_cases ha <;> decide)
  refine ⟨h, h.trans ?_⟩
  decide

/-- Claim C1: on a non-empty observation list the resolver works on the
list sorted lexicographically by period token (`strLe` is byte-
lexicographic string order): the returned start is the first observation
whose token is `>=` the requested start token — it is a member, its token
is `>=` the start token, and it is minimal among all qualifying
observations — and it fails with the no-data-at/after-start error exactly
when no token qualifies; the returned latest is the last element of the
sorted sequence, i.e. a member whose token bounds every token from above,
and the requested end period plays no role at all; finally a successful
result carries strictly positive values, and when a qualifying token
exists the only other outcome is the defensive `<= 0` re-check error. -/
theorem pick_start_and_latest_spec (obs : List (String × ℚ))
    (startP endP : String) (hne : obs ≠ []) :
    (∀ ts vs tl vl,
      pick_start_and_latest obs startP endP = .ok (ts, vs, tl, vl) →
      ((ts, vs) ∈ obs ∧ strLe startP ts = true ∧
        (∀ p ∈ obs, strLe startP p.1 = true → strLe ts p.1 = true)) ∧
      ((tl, vl) ∈ obs ∧ ∀ p ∈ obs, strLe p.1 tl = true) ∧
      (0 < vs ∧ 0 < vl)) ∧
    ((∀ p ∈ obs, ¬ strLe startP p.1 = true) →
      pick_start_and_latest obs startP endP =
        .error "No CPI data found at/after start date (start too early?)") ∧
    ((∃ p ∈ obs, strLe startP p.1 = true) →
      (∃ r, pick_start_and_latest obs startP endP = .ok r) ∨
        pick_start_and_latest obs startP endP = .error "Invalid CPI values (<= 0)") ∧
    (∀ e2, pick_start_and_latest obs startP e2 =
      pick_start_and_latest obs startP endP) := by
  haveI : IsTrans (String × ℚ) obsLe := ⟨fun _ _ _ hab hbc => charListLe_trans hab hbc⟩
  haveI : IsTotal (String × ℚ) obsLe :=
    ⟨fun a b => charListLe_total a.1.data b.1.data⟩
  have hpw : List.Pairwise obsLe (List.insertionSort obsLe obs) :=
    List.sorted_insertionSort obsLe obs
  have hmem : ∀ a : String × ℚ, a ∈ List.insertionSort obsLe obs ↔ a ∈ obs :=
    fun a => (List.perm_insertionSort obsLe obs).mem_iff
  have hne2 : obs.isEmpty = false := by
    cases obs with
    | nil => exact absurd rfl hne
    | cons _ _ => rfl
  have hpick : pick_start_and_latest obs startP endP =
      match (List.insertionSort obsLe obs).find? (fun p => strLe startP p.1) with
      | none => .error "No CPI data found at/after start date (start too early?)"
      | some startObs =>
        match (List.insertionSort obsLe obs).getLast? with
        | none => .error "No CPI data found"
        | some latestObs =>
          if startObs.2 ≤ 0 ∨ latestObs.2 ≤ 0 then .error "Invalid CPI values (<= 0)"
          else .ok (startObs.1, startObs.2, latestObs.1, latestObs.2) := by
    unfold pick_start_and_latest
    rw [hne2]
    rfl
  refine ⟨?_, ?_, ?_, ?_⟩
  · intro ts vs tl vl hok
    rw [hpick] at hok
    cases hf : (List.insertionSort obsLe obs).find? (fun p => strLe startP p.1) with
    | none => rw [hf] at hok; simp at hok
    | some so =>
      rw [hf] at hok
      cases hl : (List.insertionSort obsLe obs).getLast? with
      | none => rw [hl] at hok; simp at hok
      | some lo =>
        rw [hl] at hok
        have hok2 : (if so.2 ≤ 0 ∨ lo.2 ≤ 0 then
            (Except.error "Invalid CPI values (<= 0)" :
              Except String (String × ℚ × String × ℚ))
            else Except.ok (so.1, so.2, lo.1, lo.2)) = Except.ok (ts, vs, tl, vl) := hok
        by_cases hv : so.2 ≤ 0 ∨ lo.2 ≤ 0
        · rw [if_pos hv] at hok2; cases hok2
        · rw [if_neg hv] at hok2
          push_neg at hv
          injection hok2 with hok
          obtain ⟨h1, h2, h3, h4⟩ : so.1 = ts ∧ so.2 = vs ∧ lo.1 = tl ∧ lo.2 = vl := by
            rw [Prod.mk.injEq, Prod.mk.injEq, Prod.mk.injEq] at hok
            exact ⟨hok.1, hok.2.1, hok.2.2.1, hok.2.2.2⟩
          obtain ⟨hgs, hgmem, hgmin⟩ := find_ge_first _ so hpw hf
          obtain ⟨hlmem, hlmax⟩ := getLast_max _ lo hpw hl
          refine ⟨⟨?_, ?_, ?_⟩, ⟨?_, ?_⟩, ?_, ?_⟩
          · rw [← h1, ← h2]
            exact (hmem so).mp hgmem
          · rw [← h1]; exact hgs
          · intro p hp hsp
            rw [← h1]
            exact hgmin p ((hmem p).mpr hp) hsp
          · rw [← h3, ← h4]
            exact (hmem lo).mp hlmem
          · intro p hp
            rw [← h3]
            exact hlmax p ((hmem p).mpr hp)
          · rw [← h2]; exact hv.1
          · rw [← h4]; exact hv.2
  · intro hall
    rw [hpick]
    have hfn : (List.insertionSort obsLe obs).find? (fun p => strLe startP p.1) = none :=
      List.find?_eq_none.mpr (fun x hx => hall x ((hmem x).mp hx))
    rw [hfn]
  · rintro ⟨p, hp, hpred⟩
    rw [hpick]
    have hfs : ((List.insertionSort obsLe obs).find?
        (fun p => strLe startP p.1)).isSome = true :=
      List.find?_isSome.mpr ⟨p, (hmem p).mpr hp, hpred⟩
    obtain ⟨so, hf⟩ := Option.isSome_iff_exists.mp hfs
    rw [hf]
    cases hl : (List.insertionSort obsLe obs).getLast? with
    | none =>
      have : List.insertionSort obsLe obs = [] := List.getLast?_eq_none_iff.mp hl
      rw [this] at hmem
      exact absurd ((hmem p).mpr hp) (by simp)
    | some lo =>
      by_cases hv : so.2 ≤ 0 ∨ lo.2 ≤ 0
      · right
        show (if so.2 ≤ 0 ∨ lo.2 ≤ 0 then
            (Except.error "Invalid CPI values (<= 0)" :
              Except String (String × ℚ × String × ℚ))
            else Except.ok (so.1, so.2, lo.1, lo.2)) =
          Except.error "Invalid CPI values (<= 0)"
        rw [if_pos hv]
      · left
        refine ⟨(so.1, so.2, lo.1, lo.2), ?_⟩
        show (if so.2 ≤ 0 ∨ lo.2 ≤ 0 then
            (Except.error "Invalid CPI values (<= 0)" :
              Except String (String × ℚ × String × ℚ))
            else Except.ok (so.1, so.2, lo.1, lo.2)) =
          Except.ok (so.1, so.2, lo.1, lo.2)
        rw [if_neg hv]
  · intro e2
    rfl

theorem pick_start_and_latest_spec_witness :
    pick_start_and_latest
      [("2020-M02", (101 : ℚ)), ("2020-M01", 100), ("2021-M06", 125)]
      "2020-M02" "2030-M01" = .ok ("2020-M02", 101, "2021-M06", 125) ∧
    (("2021-M06", (125 : ℚ)) ∈
      [("2020-M02", (101 : ℚ)), ("2020-M01", 100), ("2021-M06", 125)] ∧
      ∀ p ∈ [("2020-M02", (101 : ℚ)), ("2020-M01", 100), ("2021-M06", 125)],
        strLe p.1 "2021-M06" = true) := by
  have hok : pick_start_and_latest
      [("2020-M02", (101 : ℚ)), ("2020-M01", 100), ("2021-M06", 125)]
      "2020-M02" "2030-M01" = .ok ("2020-M02", 101, "2021-M06", 125) := rfl
  have hs := (pick_start_and_latest_spec
    [("2020-M02", (101 : ℚ)), ("2020-M01", 100), ("2021-M06", 125)]
    "2020-M02" "2030-M01" (by simp)).1 _ _ _ _ hok
  exact ⟨hok, hs.2.1⟩

/-- Claim C5 counterexample: the claim says the monthly parser accepts
exactly the shape 4-digit-year `-` 2-digit-month and must fail on any
other shape, such as one whose year part is not 4 digits.  But the source
only checks total length 7 and two integer-parseable fragments: the
string `123-012` (3-digit year, 3-digit month) is not of the claimed
shape, yet `parse_ym` accepts it. -/
theorem parse_ym_counterexample :
    claimShapeYM "123-012".data = false ∧
      (parse_ym "123-012".data).isOk = true := by decide

/-- Claim C5 amended: `parse_ym` accepts every string of the claimed shape
4-digit-year `-` 2-digit-month with month in `[1, 12]` (all real calendar
dates), but not only those: the actual acceptance condition is trimmed
length 7 plus a `-` split into two integer-parseable fragments with month
in `[1, 12]`, which also admits shapes like `123-012`. -/
theorem parse_ym_accepts_claimed_shape (a b c d e f : Nat)
    (ha : a < 10) (hb : b < 10) (hc : c < 10) (hd : d < 10)
    (he : e < 10) (hf : f < 10)
    (hm1 : 1 ≤ 10 * e + f) (hm2 : 10 * e + f ≤ 12) :
    (parse_ym [Nat.digitChar a, Nat.digitChar b, Nat.digitChar c, Nat.digitChar d,
      '-', Nat.digitChar e, Nat.digitChar f]).isOk = true := by
  have hwsA : Char.isWhitespace (Nat.digitChar a) = false := digitChar_not_ws a ha
  have hwsF : Char.isWhitespace (Nat.digitChar f) = false := digitChar_not_ws f hf
  have htrim : rustTrim [Nat.digitChar a, Nat.digitChar b, Nat.digitChar c,
      Nat.digitChar d, '-', Nat.digitChar e, Nat.digitChar f] =
      [Nat.digitChar a, Nat.digitChar b, Nat.digitChar c, Nat.digitChar d,
       '-', Nat.digitChar e, Nat.digitChar f] := by
    unfold rustTrim
    rw [List.dropWhile_cons, if_neg (by simp [hwsA])]
    have hrev : ([Nat.digitChar a, Nat.digitChar b, Nat.digitChar c, Nat.digitChar d,
        '-', Nat.digitChar e, Nat.digitChar f] : List Char).reverse =
        [Nat.digitChar f, Nat.digitChar e, '-', Nat.digitChar d, Nat.digitChar c,
         Nat.digitChar b, Nat.digitChar a] := by
      rfl
    rw [hrev, List.dropWhile_cons, if_neg (by simp [hwsF])]
    rfl
  have hsplit : splitDash [Nat.digitChar a, Nat.digitChar b, Nat.digitChar c,
      Nat.digitChar d, '-', Nat.digitChar e, Nat.digitChar f] =
      [[Nat.digitChar a, Nat.digitChar b, Nat.digitChar c, Nat.digitChar d],
       [Nat.digitChar e, Nat.digitChar f]] := by
    have h4 : ∀ ch ∈ [Nat.digitChar a, Nat.digitChar b, Nat.digitChar c,
        Nat.digitChar d], ch ≠ '-' := by
      intro ch hch
      simp only [List.mem_cons, List.not_mem_nil, or_false] at hch
      rcases hch with rfl | rfl | rfl | rfl
      · exact digitChar_ne_dash a ha
      · exact digitChar_ne_dash b hb
      · exact digitChar_ne_dash c hc
      · exact digitChar_ne_dash d hd
    have h2 : ∀ ch ∈ [Nat.digitChar e, Nat.digitChar f], ch ≠ '-' := by
      intro ch hch
      simp only [List.mem_cons, List.not_mem_nil, or_false] at hch
      rcases hch with rfl | rfl
      · exact digitChar_ne_dash e he
      · exact digitChar_ne_dash f hf
    have := splitDash_append [Nat.digitChar a, Nat.digitChar b, Nat.digitChar c,
      Nat.digitChar d] [Nat.digitChar e, Nat.digitChar f] h4
    rw [show ([Nat.digitChar a, Nat.digitChar b, Nat.digitChar c, Nat.digitChar d] ++
        '-' :: [Nat.digitChar e, Nat.digitChar f]) =
        [Nat.digitChar a, Nat.digitChar b, Nat.digitChar c, Nat.digitChar d,
         '-', Nat.digitChar e, Nat.digitChar f] from rfl] at this
    rw [this, splitDash_nodash _ h2]
  have hdig4 : parseDigits [Nat.digitChar a, Nat.digitChar b, Nat.digitChar c,
      Nat.digitChar d] = some ((((0 * 10 + a) * 10 + b) * 10 + c) * 10 + d) := by
    simp [parseDigits, digitChar_isDigit a ha, digitChar_isDigit b hb,
      digitChar_isDigit c hc, digitChar_isDigit d hd, digitChar_toNat a ha,
      digitChar_toNat b hb, digitChar_toNat c hc, digitChar_toNat d hd]
  have hdig2 : parseDigits [Nat.digitChar e, Nat.digitChar f] =
      some ((0 * 10 + e) * 10 + f) := by
    simp [parseDigits, digitChar_isDigit e he, digitChar_isDigit f hf,
      digitChar_toNat e he, digitChar_toNat f hf]
  have hy : parseI32 [Nat.digitChar a, Nat.digitChar b, Nat.digitChar c,
      Nat.digitChar d] = some (((((0 * 10 + a) * 10 + b) * 10 + c) * 10 + d : Nat) :
        Int) := by
    rw [parseI32, if_neg (digitChar_ne_plus a ha), if_neg (digitChar_ne_dash a ha),
      hdig4]
    simp only [Option.some_bind]
    rw [if_pos (by omega)]
  have hm : parseU32 [Nat.digitChar e, Nat.digitChar f] =
      some ((0 * 10 + e) * 10 + f) := by
    rw [parseU32, if_neg (digitChar_ne_plus e he), hdig2]
    simp only [Option.some_bind]
    rw [if_pos (by omega)]
  have hmrange : 1 ≤ (0 * 10 + e) * 10 + f ∧ (0 * 10 + e) * 10 + f ≤ 12 := by omega
  have hdate : naiveDateValid (((((0 * 10 + a) * 10 + b) * 10 + c) * 10 + d : Nat) :
      Int) ((0 * 10 + e) * 10 + f) = true := by
    simp only [naiveDateValid, Bool.and_eq_true, decide_eq_true_eq]
    refine ⟨⟨⟨by omega, by omega⟩, by omega⟩, ?_⟩
    have : ((((0 * 10 + a) * 10 + b) * 10 + c) * 10 + d : Nat) ≤ 9999 := by omega
    omega
  unfold parse_ym
  rw [htrim]
  simp only [List.length_cons, List.length_nil]
  rw [if_neg (by omega)]
  simp only [hsplit, hy, hm]
  rw [if_neg (not_not_intro hmrange), if_pos hdate]
  rfl

theorem parse_ym_accepts_claimed_shape_witness :
    (parse_ym "2021-01".data).isOk = true := by
  have h := parse_ym_accepts_claimed_shape 2 0 2 1 0 1
    (by omega) (by omega) (by omega) (by omega) (by omega) (by omega)
    (by omega) (by omega)
  exact h

/-- Claim C8: both cache keys are pure functions of the query parameters
(the same query always derives the same key), and they are injective over
them: for the SDMX key, over the area code (dot-free, as area codes are
alphanumeric) and the canonical monthly period range; for the DataMapper
key, over the ISO3 code (unrestricted) and the year range in the
`[1800, 3000]` window `parse_year_loose` guarantees. -/
theorem cache_key_injective :
    (∀ (c₁ c₂ : List Char) (y₁ m₁ z₁ n₁ y₂ m₂ z₂ n₂ : Nat),
      '.' ∉ c₁ → '.' ∉ c₂ →
      y₁ < 10000 → m₁ < 100 → z₁ < 10000 → n₁ < 100 →
      y₂ < 10000 → m₂ < 100 → z₂ < 10000 → n₂ < 100 →
      sdmx_cache_key (sdmx_series_key c₁) (sdmx_period y₁ m₁) (sdmx_period z₁ n₁) =
        sdmx_cache_key (sdmx_series_key c₂) (sdmx_period y₂ m₂) (sdmx_period z₂ n₂) →
      c₁ = c₂ ∧ y₁ = y₂ ∧ m₁ = m₂ ∧ z₁ = z₂ ∧ n₁ = n₂) ∧
    (∀ (i₁ i₂ : List Char) (s₁ e₁ s₂ e₂ : Nat),
      1000 ≤ s₁ → s₁ < 10000 → 1000 ≤ e₁ → e₁ < 10000 →
      1000 ≤ s₂ → s₂ < 10000 → 1000 ≤ e₂ → e₂ < 10000 →
      dm_cache_key i₁ s₁ e₁ = dm_cache_key i₂ s₂ e₂ →
      i₁ = i₂ ∧ s₁ = s₂ ∧ e₁ = e₂) := by
  constructor
  · intro c₁ c₂ y₁ m₁ z₁ n₁ y₂ m₂ z₂ n₂ hdot₁ hdot₂ hy₁ hm₁ hz₁ hn₁ hy₂ hm₂ hz₂ hn₂ hkey
    have hd₁ : dotToUnderscore (sdmx_series_key c₁) = c₁ ++ "_CPI__T_IX_M".data := by
      unfold sdmx_series_key dotToUnderscore
      rw [List.map_append]
      have h1 := dotToUnderscore_of_clean hdot₁
      unfold dotToUnderscore at h1
      rw [h1]
      rfl
    have hd₂ : dotToUnderscore (sdmx_series_key c₂) = c₂ ++ "_CPI__T_IX_M".data := by
      unfold sdmx_series_key dotToUnderscore
      rw [List.map_append]
      have h1 := dotToUnderscore_of_clean hdot₂
      unfold dotToUnderscore at h1
      rw [h1]
      rfl
    unfold sdmx_cache_key at hkey
    rw [hd₁, hd₂, stripDashes_sdmx_period hy₁ hm₁, stripDashes_sdmx_period hz₁ hn₁,
      stripDashes_sdmx_period hy₂ hm₂, stripDashes_sdmx_period hz₂ hn₂] at hkey
    simp only [List.append_assoc, List.cons_append, List.nil_append] at hkey
    repeat injection hkey with _ hkey
    obtain ⟨hc, htail⟩ := List.append_inj' hkey (by rfl)
    subst hc
    simp only [List.cons.injEq, List.nil_eq] at htail
    obtain ⟨_, _, _, _, _, _, _, _, _, _, _, _, _, q1, q2, q3, q4, _, q5, q6, _,
      r1, r2, r3, r4, _, r5, r6, _⟩ := htail
    have e1 := digitChar_inj _ (by omega) _ (by omega) q1
    have e2 := digitChar_inj _ (by omega) _ (by omega) q2
    have e3 := digitChar_inj _ (by omega) _ (by omega) q3
    have e4 := digitChar_inj _ (by omega) _ (by omega) q4
    have e5 := digitChar_inj _ (by omega) _ (by omega) q5
    have e6 := digitChar_inj _ (by omega) _ (by omega) q6
    have f1 := digitChar_inj _ (by omega) _ (by omega) r1
    have f2 := digitChar_inj _ (by omega) _ (by omega) r2
    have f3 := digitChar_inj _ (by omega) _ (by omega) r3
    have f4 := digitChar_inj _ (by omega) _ (by omega) r4
    have f5 := digitChar_inj _ (by omega) _ (by omega) r5
    have f6 := digitChar_inj _ (by omega) _ (by omega) r6
    refine ⟨rfl, by omega, by omega, by omega, by omega⟩
  · intro i₁ i₂ s₁ e₁ s₂ e₂ hs₁l hs₁u he₁l he₁u hs₂l hs₂u he₂l he₂u hkey
    unfold dm_cache_key at hkey
    rw [natDecimal_digits4 hs₁l hs₁u, natDecimal_digits4 he₁l he₁u,
      natDecimal_digits4 hs₂l hs₂u, natDecimal_digits4 he₂l he₂u] at hkey
    simp only [List.append_assoc, List.cons_append, List.nil_append] at hkey
    repeat injection hkey with _ hkey
    obtain ⟨hi, htail⟩ := List.append_inj' hkey (by rfl)
    subst hi
    simp only [List.cons.injEq, List.nil_eq] at htail
    obtain ⟨_, q1, q2, q3, q4, _, r1, r2, r3, r4, _⟩ := htail
    have e1 := digitChar_inj _ (by omega) _ (by omega) q1
    have e2 := digitChar_inj _ (by omega) _ (by omega) q2
    have e3 := digitChar_inj _ (by omega) _ (by omega) q3
    have e4 := digitChar_inj _ (by omega) _ (by omega) q4
    have f1 := digitChar_inj _ (by omega) _ (by omega) r1
    have f2 := digitChar_inj _ (by omega) _ (by omega) r2
    have f3 := digitChar_inj _ (by omega) _ (by omega) r3
    have f4 := digitChar_inj _ (by omega) _ (by omega) r4
    refine ⟨rfl, by omega, by omega⟩

theorem cache_key_injective_witness :
    "POL".data = "POL".data ∧ (2020 : Nat) = 2020 ∧ (1 : Nat) = 1 ∧
      (2021 : Nat) = 2021 ∧ (6 : Nat) = 6 :=
  cache_key_injective.1 "POL".data "POL".data 2020 1 2021 6 2020 1 2021 6
    (by decide) (by decide) (by omega) (by omega) (by omega) (by omega)
    (by omega) (by omega) (by omega) (by omega) rfl

end RealIncome
